import Mathlib

/-!
Shallow embedding of the core decoding engine of the py-datavolley repository
(files `datavolley/core/players.py`, `datavolley/core/attack_combos.py`,
`datavolley/core/set_calls.py`, `datavolley/utils/metadata.py`).

Python text is modelled as `List Char` (`PyStr`).  Python string operations
(`split`, `strip`, `isdigit`, `int(...)`) are embedded as executable Lean
functions with the same semantics on ASCII text.  The `re.search` calls of the
source are embedded by purpose-built scanners reproducing the semantics of the
concrete patterns used there (leftmost match; lazy `(.*?)` bounded by a
lookahead alternation; `$` matching at the end of the string and also just
before a newline that ends the string).  Randomness (`uuid.uuid4().hex` and
`random.choices`) is made explicit: the random draws are passed in as
parameters, so one Python run corresponds to one choice of those parameters.
Fallible code returns `Option`/`Except`; every function is total.
-/

namespace PyDV

abbrev PyStr := List Char

/-- Coerce a Lean string literal to the `List Char` model of Python text. -/
def pys (s : String) : PyStr := s.data

/-- The whitespace test of Python's `str.strip` (ASCII fragment). -/
def pySpace (c : Char) : Bool :=
  c == ' ' || c == '\t' || c == '\n' || c == '\r' || c == '\x0b' || c == '\x0c'

/-- Python `s.strip()`: drop leading and trailing whitespace. -/
def pyStrip (s : PyStr) : PyStr :=
  ((s.dropWhile pySpace).reverse.dropWhile pySpace).reverse

/-- Python `s.split(sep)` for a one-character separator: keeps empty chunks,
and `"".split(sep) == [""]`. -/
def splitCh (sep : Char) : PyStr → List PyStr
  | [] => [[]]
  | c :: rest =>
    if c = sep then [] :: splitCh sep rest
    else
      match splitCh sep rest with
      | t :: ts => (c :: t) :: ts
      | [] => [[c]]

/-- The line tokenizer used by every section:
`[line.strip() for line in s.split("\n") if line.strip()]`. -/
def pyLines (s : PyStr) : List PyStr :=
  ((splitCh '\n' s).map pyStrip).filter (fun l => !(l == []))

/-- ASCII decimal digit test (the digits `int(...)` can parse). -/
def isDig (c : Char) : Bool := 48 ≤ c.toNat && c.toNat ≤ 57

/-- A character of Python's `str.isdigit` class, on the latin-1 fragment the
caller's encoding fallback can produce: the ASCII decimal digits plus the
superscript digit characters `¹` `²` `³` (U+00B9, U+00B2, U+00B3), which are
isdigit-true yet rejected by `int(...)`. -/
def pyDigitChar (c : Char) : Bool :=
  isDig c || c == '¹' || c == '²' || c == '³'

/-- Python `s.isdigit()`: nonempty and all digit-class characters.  This is a
strictly weaker guard than int-parsability: a superscript digit passes it and
then makes `int(...)` raise. -/
def isdigitB (s : PyStr) : Bool := !(s == []) && s.all pyDigitChar

/-- Nonempty and all ASCII decimal digits: exactly the digit runs `int(...)`
accepts. -/
def decDigits (s : PyStr) : Bool := !(s == []) && s.all isDig

/-- Numeric value of a digit string (big-endian). -/
def digitsVal (s : PyStr) : Nat := s.foldl (fun a c => a * 10 + (c.toNat - 48)) 0

/-- Python `int(s)` on ASCII text, as a partial function: optional surrounding
whitespace, an optional single sign, then at least one decimal digit. -/
def pyInt? (s : PyStr) : Option Int :=
  match pyStrip s with
  | '+' :: ds => if decDigits ds then some ((digitsVal ds : Int)) else none
  | '-' :: ds => if decDigits ds then some (-(digitsVal ds : Int)) else none
  | ds => if decDigits ds then some ((digitsVal ds : Int)) else none

/-- Python `c in s` for a single character `c`. -/
def hasChar (c : Char) (s : PyStr) : Bool := s.any (· == c)

/-- `tok if tok else None`: Python truthiness of a string field. -/
def optStr (s : PyStr) : Option PyStr := if s == [] then none else some s

/-- `int(tok) if tok.isdigit() else None`: the guarded coercion the decoders
use for optional numeric fields.  `Except.ok none` when the guard fails;
`Except.error` when the guard passes but `int(...)` still raises (a
digit-class token with a non-decimal character), which the enclosing
`try/except` of the decoder turns into rejection of the whole record. -/
def guardInt (s : PyStr) : Except Unit (Option Int) :=
  if isdigitB s then
    if decDigits s then Except.ok (some ((digitsVal s : Int))) else Except.error ()
  else Except.ok none

/-- Did the guarded coercion avoid the `ValueError`? -/
def guardOkB (e : Except Unit (Option Int)) : Bool :=
  match e with
  | Except.ok _ => true
  | Except.error _ => false

/-- The decimal digit character for `r % 10`. -/
def digitChar (r : Nat) : Char :=
  match r with
  | 0 => '0' | 1 => '1' | 2 => '2' | 3 => '3' | 4 => '4'
  | 5 => '5' | 6 => '6' | 7 => '7' | 8 => '8' | _ => '9'

/-- Decimal rendering of a natural number, fuelled so that it reduces in the
kernel (the fuel is always sufficient: `n < fuel` on every call). -/
def natToStrAux : Nat → Nat → PyStr
  | 0, _ => []
  | fuel + 1, n =>
    if n < 10 then [digitChar n]
    else natToStrAux fuel (n / 10) ++ [digitChar (n % 10)]

/-- Python `str(n)` for a natural number. -/
def natToStr (n : Nat) : PyStr := natToStrAux (n + 1) n

/-- Python `str(i)` for an integer (as produced by an f-string). -/
def intToStr (i : Int) : PyStr :=
  if i < 0 then '-' :: natToStr i.natAbs else natToStr i.toNat

/-! ## SectionLocator

Each section of the document is extracted by a `re.search` of the form
`MARKER(.*?)(?=STOP1|STOP2|...|$)` with `re.DOTALL`.  The search finds the
first occurrence of the literal `MARKER`; the lazy group then extends to the
first position at which one of the literal stop strings begins, or at which
`$` matches — that is, the end of the document, or just before a newline that
ends the document.  Such a pattern matches at the first occurrence of the
marker whenever the marker occurs at all, because `$` always provides a
terminator. -/

/-- Does one of the lookahead terminators match at this position?  `stops` are
the literal alternatives; the final `s == ['\n']` clause is Python's `$`
matching just before a newline that ends the string (`$` at the very end of
the string is the `[]` base case of `takeBody`). -/
def stopHere (stops : List PyStr) (s : PyStr) : Bool :=
  stops.any (fun p => p.isPrefixOf s) || s == ['\n']

/-- The lazy group `(.*?)` bounded by the lookahead: take characters up to the
first position where a terminator matches. -/
def takeBody (stops : List PyStr) : PyStr → PyStr
  | [] => []
  | c :: rest =>
    if stopHere stops (c :: rest) then []
    else c :: takeBody stops rest

/-- `re.search(marker + lazy-group + lookahead, s, re.DOTALL)`: group 1 of the
match at the first occurrence of `marker`, or `none` when the marker does not
occur. -/
def findSection (m : PyStr) (stops : List PyStr) : PyStr → Option PyStr
  | [] => if m = [] then some [] else none
  | c :: rest =>
    if m.isPrefixOf (c :: rest) then some (takeBody stops ((c :: rest).drop m.length))
    else findSection m stops rest

/-- Does the literal `p` occur anywhere in `s`? -/
def hasOcc (p : PyStr) : PyStr → Bool
  | [] => p.isPrefixOf []
  | c :: rest => p.isPrefixOf (c :: rest) || hasOcc p rest

/-- Python `enumerate(l, n)`. -/
def withIdx (n : Nat) : List α → List (Nat × α)
  | [] => []
  | a :: l => (n, a) :: withIdx (n + 1) l

/-! ## EntityDecoders (`attack_combos.py`, `set_calls.py`, `players.py`) -/

/-- The record built by `parse_attack_combo_line`. -/
structure AttackCombo where
  code : Option PyStr
  zone : Option Int
  position : Option PyStr
  type : Option PyStr
  description : Option PyStr
  field_5 : Option PyStr
  color_code : Option Int
  position_code : Option Int
  set_direction : Option PyStr
  backrow : Bool
  field_10 : Option PyStr
  raw_data : List PyStr
deriving DecidableEq, Repr

/-- `attack_combos.parse_attack_combo_line`: admit the line when it has at
least 5 semicolon-separated fields.  A numeric token that fails the `isdigit`
guard degrades to `none`; a token that passes `isdigit` but is not
int-parsable (a superscript digit) raises `ValueError` inside the `try`, and
the `except` clause drops the whole record — the `Except.error` arm below.
No exception escapes the decoder. -/
def parse_attack_combo_line (line : PyStr) : Option AttackCombo :=
  let parts := splitCh ';' line
  if parts.length < 5 then none
  else
    match guardInt (parts.getD 1 []),
        (if 6 < parts.length then guardInt (parts.getD 6 []) else Except.ok none),
        (if 7 < parts.length then guardInt (parts.getD 7 []) else Except.ok none) with
    | Except.ok zone, Except.ok color_code, Except.ok position_code =>
      some {
        code := optStr (parts.getD 0 []),
        zone,
        position := optStr (parts.getD 2 []),
        type := optStr (parts.getD 3 []),
        description := optStr (parts.getD 4 []),
        field_5 := if 5 < parts.length then some (parts.getD 5 []) else none,
        color_code,
        position_code,
        set_direction := if 8 < parts.length then optStr (parts.getD 8 []) else none,
        backrow :=
          if 9 < parts.length && !(parts.getD 9 [] == []) then parts.getD 9 [] == pys "1"
          else false,
        field_10 := if 10 < parts.length then some (parts.getD 10 []) else none,
        raw_data := parts }
    | _, _, _ => none

/-- Does no guarded `int(...)` of `parse_attack_combo_line` raise on this
line?  Mirrors the three guarded coercions of the decoder. -/
def attackNoExn (line : PyStr) : Bool :=
  let parts := splitCh ';' line
  guardOkB (guardInt (parts.getD 1 [])) &&
  guardOkB (if 6 < parts.length then guardInt (parts.getD 6 []) else Except.ok none) &&
  guardOkB (if 7 < parts.length then guardInt (parts.getD 7 []) else Except.ok none)

/-- `attack_combos.extract_attack_combinations`: pattern
`\[3ATTACKCOMBINATION\](.*?)(?=\[3SETTERCALL\]|\[3|\n\n|$)` with `re.DOTALL`. -/
def extract_attack_combinations (doc : PyStr) : List AttackCombo :=
  match findSection (pys "[3ATTACKCOMBINATION]")
      [pys "[3SETTERCALL]", pys "[3", pys "\n\n"] doc with
  | none => []
  | some body =>
    (pyLines (pyStrip body)).filterMap (fun line =>
      if line == [] then none else parse_attack_combo_line line)

/-- The record built by `parse_setter_call_line`. -/
structure SetterCall where
  code : Option PyStr
  field_1 : Option PyStr
  description : Option PyStr
  field_3 : Option PyStr
  color_code : Option Int
  position_1 : Option Int
  position_2 : Option Int
  position_3 : Option Int
  additional_codes : Option PyStr
  field_9 : Option Int
  additional_codes_list : List PyStr
  raw_data : List PyStr
deriving DecidableEq, Repr

/-- `set_calls.parse_setter_call_line`: admit the line when it has at least 3
semicolon-separated fields; `additional_codes_list` is the comma split of the
`additional_codes` field, each piece stripped, empty pieces dropped.  As in
the attack decoder, an isdigit-passing but non-int-parsable numeric token
raises inside the `try` and the `except` drops the whole record
(`Except.error` arm); no exception escapes. -/
def parse_setter_call_line (line : PyStr) : Option SetterCall :=
  let parts := splitCh ';' line
  if parts.length < 3 then none
  else
    match (if 4 < parts.length then guardInt (parts.getD 4 []) else Except.ok none),
        (if 5 < parts.length then guardInt (parts.getD 5 []) else Except.ok none),
        (if 6 < parts.length then guardInt (parts.getD 6 []) else Except.ok none),
        (if 7 < parts.length then guardInt (parts.getD 7 []) else Except.ok none),
        (if 9 < parts.length then guardInt (parts.getD 9 []) else Except.ok none) with
    | Except.ok color_code, Except.ok position_1, Except.ok position_2,
      Except.ok position_3, Except.ok field_9 =>
      let additional_codes :=
        if 8 < parts.length && !(parts.getD 8 [] == []) then some (parts.getD 8 []) else none
      some {
        code := optStr (parts.getD 0 []),
        field_1 := if 1 < parts.length then some (parts.getD 1 []) else none,
        description := optStr (parts.getD 2 []),
        field_3 := if 3 < parts.length then some (parts.getD 3 []) else none,
        color_code,
        position_1,
        position_2,
        position_3,
        additional_codes,
        field_9,
        additional_codes_list :=
          match additional_codes with
          | some s => ((splitCh ',' s).map pyStrip).filter (fun p => !(p == []))
          | none => [],
        raw_data := parts }
    | _, _, _, _, _ => none

/-- Does no guarded `int(...)` of `parse_setter_call_line` raise on this
line?  Mirrors the five guarded coercions of the decoder. -/
def setterNoExn (line : PyStr) : Bool :=
  let parts := splitCh ';' line
  guardOkB (if 4 < parts.length then guardInt (parts.getD 4 []) else Except.ok none) &&
  guardOkB (if 5 < parts.length then guardInt (parts.getD 5 []) else Except.ok none) &&
  guardOkB (if 6 < parts.length then guardInt (parts.getD 6 []) else Except.ok none) &&
  guardOkB (if 7 < parts.length then guardInt (parts.getD 7 []) else Except.ok none) &&
  guardOkB (if 9 < parts.length then guardInt (parts.getD 9 []) else Except.ok none)

/-- `set_calls.extract_setter_calls`: pattern
`\[3SETTERCALL\](.*?)(?=\[3|\n\n|$)` with `re.DOTALL`. -/
def extract_setter_calls (doc : PyStr) : List SetterCall :=
  match findSection (pys "[3SETTERCALL]") [pys "[3", pys "\n\n"] doc with
  | none => []
  | some body =>
    (pyLines (pyStrip body)).filterMap (fun line =>
      if line == [] then none else parse_setter_call_line line)

/-- `players.extract_teams` (the lightweight local version in `players.py`):
a Python dict with keys `"team_1"`/`"team_2"`, whose values can themselves be
`None` when the name field is empty.  Modelled as an association list in
insertion order. -/
def dictSetO (d : List (PyStr × Option PyStr)) (k : PyStr) (v : Option PyStr) :
    List (PyStr × Option PyStr) :=
  match d with
  | [] => [(k, v)]
  | (k', v') :: rest => if k' == k then (k, v) :: rest else (k', v') :: dictSetO rest k v

/-- `players.extract_teams`: pattern `\[3TEAMS\](.*?)(?=\[3|\n\n|$)` with
`re.DOTALL`; the first nonempty line with at least 2 fields at index 0 names
`team_1`, index 1 names `team_2` (the index counts nonempty lines, admitted or
not). -/
def extract_teams (doc : PyStr) : List (PyStr × Option PyStr) :=
  match findSection (pys "[3TEAMS]") [pys "[3", pys "\n\n"] doc with
  | none => []
  | some body =>
    (withIdx 0 (pyLines (pyStrip body))).foldl (fun d e =>
      if e.2 == [] then d
      else
        let parts := splitCh ';' e.2
        if 2 ≤ parts.length then
          if e.1 = 0 then dictSetO d (pys "team_1") (optStr (parts.getD 1 []))
          else if e.1 = 1 then dictSetO d (pys "team_2") (optStr (parts.getD 1 []))
          else d
        else d) []

/-- The record built by `parse_single_player`.  `player_id` is always a
string in the source: when the 9th field is empty a pseudorandom token is
generated; the generated token is the explicit `genId` parameter here. -/
structure Player where
  team : Option PyStr
  player_number : PyStr
  player_id : PyStr
  last_name : Option PyStr
  first_name : Option PyStr
  role : Option PyStr
  full_name : Option PyStr
deriving DecidableEq, Repr

/-- `players.parse_single_player`: admit the line when it has at least 10
semicolon-separated fields.  The `genId` parameter stands for the
`random.choices` draw used when the identifier field is empty. -/
def parse_single_player (line : PyStr) (team : Option PyStr) (genId : PyStr) :
    Option Player :=
  let parts := splitCh ';' line
  if parts.length < 10 then none
  else
    let player_number :=
      if 1 < parts.length && !(parts.getD 1 [] == []) then parts.getD 1 [] else pys "0"
    let pid0 :=
      if 8 < parts.length && !(parts.getD 8 [] == []) then parts.getD 8 [] else []
    let player_id := if pid0 == [] then genId else pid0
    let last_name :=
      if 9 < parts.length && !(parts.getD 9 [] == []) then some (parts.getD 9 []) else none
    let first_name :=
      if 10 < parts.length && !(parts.getD 10 [] == []) then some (parts.getD 10 []) else none
    let full_name :=
      match first_name, last_name with
      | some f, some l => some (f ++ ' ' :: l)
      | some f, none => some f
      | none, some l => some l
      | none, none => none
    some {
      team, player_number, player_id, last_name, first_name,
      role :=
        if 12 < parts.length && !(parts.getD 12 [] == []) then some (parts.getD 12 []) else none,
      full_name }

/-- `players.parse_player_lines`: each surviving line is decoded; line `i`
draws `gen i` if it needs a generated identifier. -/
def parse_player_lines (s : PyStr) (team : Option PyStr) (gen : Nat → PyStr) :
    List Player :=
  (withIdx 0 (pyLines s)).filterMap (fun e => parse_single_player e.2 team (gen e.1))

/-- The `{"home": [...], "visiting": [...]}` result of `extract_players`. -/
structure PlayersData where
  home : List Player
  visiting : List Player
deriving DecidableEq, Repr

/-- Python `d.get(k, default)` on the teams dict. -/
def dictGetO (d : List (PyStr × Option PyStr)) (k : PyStr) : Option (Option PyStr) :=
  (d.find? (fun e => e.1 == k)).map (fun e => e.2)

/-- `players.extract_players`: home pattern
`\[3PLAYERS-H\](.*?)(?=\[3PLAYERS-V\]|\[3|\n\n|$)`, visiting pattern
`\[3PLAYERS-V\](.*?)(?=\[3|\n\n|$)`, both `re.DOTALL`; the team name passed to
the decoders is `teams.get("team_1", "Home")` / `teams.get("team_2",
"Visiting")`. -/
def extract_players (doc : PyStr) (gH gV : Nat → PyStr) : PlayersData :=
  let teams := extract_teams doc
  let homeTeam : Option PyStr :=
    match dictGetO teams (pys "team_1") with
    | some v => v
    | none => some (pys "Home")
  let visitingTeam : Option PyStr :=
    match dictGetO teams (pys "team_2") with
    | some v => v
    | none => some (pys "Visiting")
  { home :=
      match findSection (pys "[3PLAYERS-H]")
          [pys "[3PLAYERS-V]", pys "[3", pys "\n\n"] doc with
      | none => []
      | some body => parse_player_lines (pyStrip body) homeTeam gH,
    visiting :=
      match findSection (pys "[3PLAYERS-V]") [pys "[3", pys "\n\n"] doc with
      | none => []
      | some body => parse_player_lines (pyStrip body) visitingTeam gV }

/-! ## ScoreAndResultAggregator (`utils/metadata.py`) -/

/-- The set-score dict: keys `team_1_set_N` / `team_2_set_N`, integer values,
in insertion order (a Python dict). -/
abbrev ScoreDict := List (PyStr × Int)

/-- Python dict assignment `d[k] = v`: replace in place or append. -/
def dictSet (d : ScoreDict) (k : PyStr) (v : Int) : ScoreDict :=
  match d with
  | [] => [(k, v)]
  | (k', v') :: rest => if k' == k then (k, v) :: rest else (k', v') :: dictSet rest k v

/-- Python `d[k]` as a lookup. -/
def dictGet (d : ScoreDict) (k : PyStr) : Option Int :=
  (d.find? (fun e => e.1 == k)).map (fun e => e.2)

/-- The key `f"team_1_set_{set_num}"` for a natural set counter. -/
def t1key (n : Nat) : PyStr := pys "team_1_set_" ++ natToStr n

/-- The key `f"team_2_set_{set_num}"` for a natural set counter. -/
def t2key (n : Nat) : PyStr := pys "team_2_set_" ++ natToStr n

/-- The key `f"team_1_set_{x}"` for a parsed (possibly negative) integer. -/
def t1keyI (i : Int) : PyStr := pys "team_1_set_" ++ intToStr i

/-- The key `f"team_2_set_{x}"` for a parsed (possibly negative) integer. -/
def t2keyI (i : Int) : PyStr := pys "team_2_set_" ++ intToStr i

/-- `team1_score, team2_score = s.split("-"); int(team1_score.strip()),
int(team2_score.strip())` under the `try`: the unpacking needs exactly two
chunks and both must parse, otherwise the `except` skips the set. -/
def parseScorePair (s : PyStr) : Option (Int × Int) :=
  match splitCh '-' s with
  | [a, b] =>
    match pyInt? (pyStrip a), pyInt? (pyStrip b) with
    | some x, some y => some (x, y)
    | _, _ => none
  | _ => none

/-- The `for part in parts[1:5]` scan of the second score encoding: the first
part containing `-` that parses wins; a parse failure continues the scan. -/
def scanParts : List PyStr → Option (Int × Int)
  | [] => none
  | p :: ps =>
    if hasChar '-' p then
      match parseScorePair p with
      | some r => some r
      | none => scanParts ps
    else scanParts ps

/-- One iteration of the `extract_set_scores` loop: the dict entries this line
contributes for set number `set_num`.  Mirrors the source: lines with fewer
than 6 fields contribute nothing; the all-blank-plus-numeric-final heuristic
skips the set (both branches of its `if set_num >= 4` are `continue`); the
combined `a-b` field in position 4 takes priority; otherwise, when the final
team score is numeric, the four earlier fields are scanned for an `a-b`
pair. -/
def setLineEntries (set_num : Nat) (line : PyStr) : List (PyStr × Int) :=
  let parts := splitCh ';' line
  if 6 ≤ parts.length then
    let final_score := pyStrip (parts.getD 4 [])
    let final_team_score := if 5 < parts.length then pyStrip (parts.getD 5 []) else []
    let mid := (parts.drop 1).take 4
    let all_scores_empty := mid.all (fun p => pyStrip p == [])
    if all_scores_empty && isdigitB final_team_score then []
    else if hasChar '-' final_score then
      match parseScorePair final_score with
      | some (a, b) => [(t1key set_num, a), (t2key set_num, b)]
      | none => []
    else if isdigitB final_team_score && mid.any (hasChar '-') then
      match scanParts mid with
      | some (a, b) => [(t1key set_num, a), (t2key set_num, b)]
      | none => []
    else []
  else []

/-- `metadata.extract_set_scores`: pattern `\[3SET\](.*?)(?=\[3|$)` with
`re.DOTALL` — note: unlike every other section, no `\n\n` terminator.  The
surviving lines are enumerated from 1 as set numbers. -/
def extract_set_scores (doc : PyStr) : ScoreDict :=
  match findSection (pys "[3SET]") [pys "[3"] doc with
  | none => []
  | some body =>
    (withIdx 1 (pyLines (pyStrip body))).foldl (fun d e =>
      (setLineEntries e.1 e.2).foldl (fun d kv => dictSet d kv.1 kv.2) d) []

/-- The populated result dict of `get_match_result`. -/
structure MatchResult where
  team_1_sets_won : Nat
  team_2_sets_won : Nat
  total_sets_played : Nat
  match_winner : PyStr
deriving DecidableEq, Repr

/-- The `set_numbers` collection of `get_match_result`:
`int(key.split("_")[-1])` for every key starting with `team_1_set_`.  The
unguarded `int(...)` can raise on a malformed key, hence `Except`. -/
def setNums : List PyStr → Except Unit (List Int)
  | [] => Except.ok []
  | k :: ks =>
    if (pys "team_1_set_").isPrefixOf k then
      match pyInt? ((splitCh '_' k).getLast?.getD []) with
      | some n => (setNums ks).map (fun l => n :: l)
      | none => Except.error ()
    else setNums ks

/-- The loop body of `get_match_result`: for one collected set number, when
both keys are present compare the scores and bump the counters; otherwise
leave them unchanged.  The accumulator is
(`team_1_sets_won`, `team_2_sets_won`, `total_sets`). -/
def tallyStep (ss : ScoreDict) (acc : Nat × Nat × Nat) (n : Int) : Nat × Nat × Nat :=
  match dictGet ss (t1keyI n), dictGet ss (t2keyI n) with
  | some s1, some s2 =>
    (acc.1 + (if s2 < s1 then 1 else 0),
     acc.2.1 + (if s1 < s2 then 1 else 0),
     acc.2.2 + 1)
  | _, _ => acc

/-- `metadata.get_match_result`.  The Python function returns the empty dict
`{}` for an empty score table; that case is modelled as `none`.  The populated
dict is `some r`.  The `Except` layer models the unguarded `int(...)` on the
key suffixes. -/
def get_match_result (ss : ScoreDict) : Except Unit (Option MatchResult) :=
  if ss = [] then Except.ok none
  else
    match setNums (ss.map (fun e => e.1)) with
    | Except.error e => Except.error e
    | Except.ok nums =>
      let tally := nums.foldl (tallyStep ss) (0, 0, 0)
      Except.ok (some {
        team_1_sets_won := tally.1,
        team_2_sets_won := tally.2.1,
        total_sets_played := tally.2.2,
        match_winner :=
          if tally.2.1 < tally.1 then pys "team_1"
          else if tally.1 < tally.2.1 then pys "team_2"
          else pys "tie" })

/-! ## MatchIdentityResolver (`metadata.generate_match_id`)

Stage 1 is `re.search(r"\[3MATCH\]\s*([^;]+;[^;]+;[^;]*;[^;]*;[^;]*;[^;]*;[^;]*;([^;]+))", doc)`.
At an occurrence of the literal `[3MATCH]` the tail `t` matches exactly when
its first and second `;`-chunks and its eighth `;`-chunk are nonempty and at
least seven `;` occur (the eighth chunk is the greedy `[^;]+`, running to the
eighth `;` or the end of the document; note `[^;]` also matches newlines).
Group 1 spans from the first field (after the greedy-then-backtracked `\s*`)
to the end of the eighth chunk.  When the occurrence does not match, the
search continues at later positions.  Stage 2 is
`re.search(r"\[3MATCH\].*?(\d{5,})", doc)` without `DOTALL`: the first run of
five or more digits after a marker occurrence and before the next newline,
maximal at its position.  Stage 3 takes `uuid.uuid4().hex[:8]`; the 32-char
hex draw is the explicit `uuidHex` parameter. -/

/-- The marker literal `[3MATCH]`. -/
def mMarker : PyStr := pys "[3MATCH]"

/-- Group 1's first field: the `\s*` consumes the maximal whitespace prefix,
backtracking one character when the whole chunk is whitespace so that `[^;]+`
is nonempty. -/
def hdrF1 (c1 : PyStr) : PyStr :=
  let w := (c1.takeWhile pySpace).length
  if w = c1.length then c1.drop (c1.length - 1) else c1.drop w

/-- Join chunks with `;`. -/
def joinSemi : List PyStr → PyStr
  | [] => []
  | [p] => p
  | p :: ps => p ++ ';' :: joinSemi ps

/-- The header attempt at one marker occurrence: group 1 of the stage-1
pattern applied to the text after the marker, or `none` when the field
structure does not match there. -/
def headerAt (t : PyStr) : Option PyStr :=
  let ch := splitCh ';' t
  if 8 ≤ ch.length && !(ch.getD 0 [] == []) && !(ch.getD 1 [] == [])
      && !(ch.getD 7 [] == []) then
    some (joinSemi (hdrF1 (ch.getD 0 []) :: ((ch.drop 1).take 7)))
  else none

/-- The digit-run attempt at one marker occurrence: scan the text after the
marker up to the first newline for the first position where five or more
consecutive digits start; return the maximal run there. -/
def digitsLine : PyStr → Option PyStr
  | [] => none
  | c :: rest =>
    if c = '\n' then none
    else if 5 ≤ ((c :: rest).takeWhile isDig).length then some ((c :: rest).takeWhile isDig)
    else digitsLine rest

/-- `re.search` for a pattern anchored on the `[3MATCH]` literal: try every
position left to right; at a marker occurrence run `attempt` on the tail after
the marker, continuing the scan when it fails. -/
def scanFor (attempt : PyStr → Option PyStr) : PyStr → Option PyStr
  | [] => none
  | c :: rest =>
    if mMarker.isPrefixOf (c :: rest) then
      match attempt ((c :: rest).drop mMarker.length) with
      | some r => some r
      | none => scanFor attempt rest
    else scanFor attempt rest

/-- Stage 1 search. -/
def searchHeader (doc : PyStr) : Option PyStr := scanFor headerAt doc

/-- Stage 2 search. -/
def searchDigits (doc : PyStr) : Option PyStr := scanFor digitsLine doc

/-- Stages 2 and 3 of `generate_match_id`. -/
def fallbackId (doc uuidHex : PyStr) : PyStr :=
  match searchDigits doc with
  | some d => d
  | none => uuidHex.take 8

/-- `metadata.generate_match_id`.  `uuidHex` is the `uuid.uuid4().hex` draw of
this run.  The `isdigit` branch of the source returns `match_id` either way
and is collapsed. -/
def generate_match_id (doc uuidHex : PyStr) : PyStr :=
  match searchHeader doc with
  | some grp =>
    let parts := splitCh ';' grp
    if 8 ≤ parts.length && !(pyStrip (parts.getD 7 []) == []) then pyStrip (parts.getD 7 [])
    else fallbackId doc uuidHex
  | none => fallbackId doc uuidHex

/-! ## MatchAssembler

The in-scope fragment of `load_dvw`: the aggregate of all components whose
source is part of the core under verification (`match_date`, `comments`,
`plays` and the full `teams` module are out of scope / not in the core).  The
two random draws of one run — the uuid hex for the match id and the
`random.choices` tokens for missing player identifiers — are the explicit
`Entropy` parameter. -/

/-- The random draws of one decoding run. -/
structure Entropy where
  uuidHex : PyStr
  genH : Nat → PyStr
  genV : Nat → PyStr

instance : DecidableEq (Except Unit (Option MatchResult)) := fun a b =>
  match a, b with
  | Except.error x, Except.error y => isTrue (by cases x; cases y; rfl)
  | Except.ok x, Except.ok y =>
    if h : x = y then isTrue (by rw [h]) else isFalse (fun hh => h (by injection hh))
  | Except.error _, Except.ok _ => isFalse (fun hh => Except.noConfusion hh)
  | Except.ok _, Except.error _ => isFalse (fun hh => Except.noConfusion hh)

/-- The assembled match aggregate (in-scope fields of `load_dvw`). -/
structure MatchData where
  match_id : PyStr
  set_scores : ScoreDict
  match_result : Except Unit (Option MatchResult)
  players : PlayersData
  attack_combinations : List AttackCombo
  setter_calls : List SetterCall
deriving DecidableEq, Repr

/-- The in-scope fragment of `load_dvw` on already-decoded text. -/
def loadCore (doc : PyStr) (e : Entropy) : MatchData :=
  let ss := extract_set_scores doc
  { match_id := generate_match_id doc e.uuidHex,
    set_scores := ss,
    match_result := get_match_result ss,
    players := extract_players doc e.genH e.genV,
    attack_combinations := extract_attack_combinations doc,
    setter_calls := extract_setter_calls doc }

/-- Hexadecimal digit as produced by `uuid.uuid4().hex` (lowercase). -/
def isHexDig (c : Char) : Bool := isDig c || (97 ≤ c.toNat && c.toNat ≤ 102)

/-- Every key of the table is a canonical `team_1_set_N` / `team_2_set_N`. -/
def scoreKeysShaped (d : ScoreDict) : Prop :=
  ∀ k ∈ d.map (fun e => e.1), (∃ n : Nat, k = t1key n) ∨ (∃ n : Nat, k = t2key n)

/-- A canonical score table: for each listed set `(n, s1, s2)`, the two dict
entries `extract_set_scores` would produce, in insertion order. -/
def renderTable (L : List (Nat × Int × Int)) : ScoreDict :=
  L.foldr (fun e d => (t1key e.1, e.2.1) :: (t2key e.1, e.2.2) :: d) []

/-- Does every admitted line of one player-section body carry a nonempty
identifier field (9th position)?  An absent section is vacuously fine. -/
def playerLinesOk (bodyOpt : Option PyStr) : Bool :=
  match bodyOpt with
  | none => true
  | some body => (pyLines (pyStrip body)).all (fun l =>
      decide ((splitCh ';' l).length < 10) || !((splitCh ';' l).getD 8 [] == []))

/-- Every admitted player line of the document carries an identifier, so the
`random.choices` fallback is never drawn. -/
def allPlayersHaveIds (doc : PyStr) : Bool :=
  playerLinesOk (findSection (pys "[3PLAYERS-H]")
      [pys "[3PLAYERS-V]", pys "[3", pys "\n\n"] doc) &&
  playerLinesOk (findSection (pys "[3PLAYERS-V]") [pys "[3", pys "\n\n"] doc)

/-- The identity chain resolves at stage 1 or stage 2, so the uuid draw is
never consumed. -/
def idResolvable (doc : PyStr) : Bool :=
  (match searchHeader doc with
   | some grp =>
     decide (8 ≤ (splitCh ';' grp).length) &&
       !(pyStrip ((splitCh ';' grp).getD 7 []) == [])
   | none => false) ||
  (searchDigits doc).isSome

/-! ## Basic lemmas about the embedded string operations -/

theorem isPrefixOf_app (m s : PyStr) : m.isPrefixOf (m ++ s) = true := by
  induction m with
  | nil => simp [List.isPrefixOf]
  | cons a as ih => simp [List.isPrefixOf, ih]

theorem isPrefixOf_exists : ∀ (m s : PyStr), m.isPrefixOf s = true → ∃ t, s = m ++ t := by
  intro m
  induction m with
  | nil => exact fun s _ => ⟨s, rfl⟩
  | cons a as ih =>
    intro s h
    cases s with
    | nil => exact absurd h (by simp [List.isPrefixOf])
    | cons b bs =>
      simp only [List.isPrefixOf, Bool.and_eq_true, beq_iff_eq] at h
      obtain ⟨t, ht⟩ := ih bs h.2
      exact ⟨t, by rw [ht, h.1]; rfl⟩

theorem findSection_self (m : PyStr) (stops : List PyStr) (r : PyStr) (hm : m ≠ []) :
    findSection m stops (m ++ r) = some (takeBody stops r) := by
  cases m with
  | nil => exact absurd rfl hm
  | cons a as =>
    have hp : (a :: as).isPrefixOf (a :: (as ++ r)) = true := isPrefixOf_app (a :: as) r
    have hd : List.drop (a :: as).length (a :: (as ++ r)) = r := List.drop_left (a :: as) r
    show findSection (a :: as) stops (a :: (as ++ r)) = _
    rw [findSection, if_pos hp, hd]

theorem findSection_of_no_occ (m : PyStr) (stops : List PyStr) :
    ∀ s : PyStr, hasOcc m s = false → findSection m stops s = none := by
  intro s
  induction s with
  | nil =>
    intro h
    rw [hasOcc] at h
    rw [findSection, if_neg]
    intro hm
    rw [hm] at h
    simp [List.isPrefixOf] at h
  | cons c rest ih =>
    intro h
    rw [hasOcc, Bool.or_eq_false_iff] at h
    rw [findSection, if_neg (by simp [h.1]), ih h.2]

theorem splitCh_of_not_mem (sep : Char) : ∀ l : PyStr, sep ∉ l → splitCh sep l = [l] := by
  intro l
  induction l with
  | nil => exact fun _ => rfl
  | cons c rest ih =>
    intro h
    have hc : ¬(c = sep) := fun hc => h (hc ▸ List.mem_cons_self c rest)
    rw [splitCh, if_neg hc, ih (fun hm => h (List.mem_cons_of_mem c hm))]

theorem length_dropWhile_le' (p : Char → Bool) : ∀ l : PyStr, (l.dropWhile p).length ≤ l.length := by
  intro l
  induction l with
  | nil => exact Nat.le_refl 0
  | cons c rest ih =>
    rw [List.dropWhile_cons]
    by_cases hc : p c
    · rw [if_pos hc]; exact Nat.le_trans ih (Nat.le_succ _)
    · rw [if_neg hc]

theorem dropWhile_eq_self_of_len (p : Char → Bool) :
    ∀ l : PyStr, (l.dropWhile p).length = l.length → l.dropWhile p = l := by
  intro l h
  cases l with
  | nil => rfl
  | cons c rest =>
    rw [List.dropWhile_cons] at h ⊢
    by_cases hc : p c
    · rw [if_pos hc] at h
      have := length_dropWhile_le' p rest
      simp [List.length_cons] at h
      omega
    · rw [if_neg hc]

theorem pyStrip_eq_self (l : PyStr) (h : pyStrip l = l) :
    l.dropWhile pySpace = l ∧ l.reverse.dropWhile pySpace = l.reverse := by
  have hlen : (pyStrip l).length = l.length := by rw [h]
  have e1 : (pyStrip l).length =
      (((l.dropWhile pySpace).reverse).dropWhile pySpace).length := by
    rw [pyStrip, List.length_reverse]
  have le1 : (((l.dropWhile pySpace).reverse).dropWhile pySpace).length ≤
      (l.dropWhile pySpace).length := by
    have := length_dropWhile_le' pySpace ((l.dropWhile pySpace).reverse)
    rwa [List.length_reverse] at this
  have le2 : (l.dropWhile pySpace).length ≤ l.length := length_dropWhile_le' pySpace l
  have hdw : l.dropWhile pySpace = l := by
    apply dropWhile_eq_self_of_len
    omega
  refine ⟨hdw, ?_⟩
  have h2 : (l.reverse.dropWhile pySpace).reverse = l := by
    calc (l.reverse.dropWhile pySpace).reverse
        = ((l.dropWhile pySpace).reverse.dropWhile pySpace).reverse := by rw [hdw]
      _ = l := by rw [← pyStrip, h]
  calc l.reverse.dropWhile pySpace
      = ((l.reverse.dropWhile pySpace).reverse).reverse := by rw [List.reverse_reverse]
    _ = l.reverse := by rw [h2]

theorem takeBody_clean : ∀ l : PyStr, hasOcc (pys "[3") l = false → '\n' ∉ l →
    takeBody [pys "[3", pys "\n\n"] l = l := by
  intro l
  induction l with
  | nil => exact fun _ _ => rfl
  | cons c rest ih =>
    intro h3 hn
    rw [hasOcc, Bool.or_eq_false_iff] at h3
    have hcn : ¬(c = '\n') := fun hc => hn (hc ▸ List.mem_cons_self c rest)
    have hnn : (pys "\n\n").isPrefixOf (c :: rest) = false := by
      show (('\n' == c) && _) = false
      have : ('\n' == c) = false := by
        simp only [beq_eq_false_iff_ne, ne_eq]
        exact fun hc => hcn hc.symm
      rw [this, Bool.false_and]
    have hsingle : ((c :: rest : PyStr) == ['\n']) = false := by
      simp only [beq_eq_false_iff_ne, ne_eq]
      intro he
      rw [List.cons.injEq] at he
      exact hcn he.1
    have hstop : stopHere [pys "[3", pys "\n\n"] (c :: rest) = false := by
      rw [stopHere]
      simp only [List.any_cons, List.any_nil, h3.1, hnn, hsingle, Bool.or_false,
        Bool.false_or]
    rw [takeBody, hstop]
    simp only [Bool.false_eq_true, if_false]
    rw [ih h3.2 (fun hm => hn (List.mem_cons_of_mem c hm))]

/-- How `extract_teams` behaves on a document made of the `[3TEAMS]` marker,
a newline, and one clean line (no newline, strip-stable, nonempty, no `[3`):
one admitted entry when the line has at least two fields, nothing
otherwise. -/
theorem extract_teams_single_line (l : PyStr) (hn : '\n' ∉ l) (hs : pyStrip l = l)
    (hne : l ≠ []) (h3 : hasOcc (pys "[3") l = false) :
    extract_teams (pys "[3TEAMS]" ++ '\n' :: l) =
      (if 2 ≤ (splitCh ';' l).length
       then [(pys "team_1", optStr ((splitCh ';' l).getD 1 []))] else []) := by
  have hsl := pyStrip_eq_self l hs
  have hpre2 : (pys "\n\n").isPrefixOf ('\n' :: l) = false := by
    cases l with
    | nil => exact absurd rfl hne
    | cons c rest =>
      have hc : ¬('\n' = c) := fun hc => hn (hc ▸ List.mem_cons_self c rest)
      simp [List.isPrefixOf, hc]
  have hbody : takeBody [pys "[3", pys "\n\n"] ('\n' :: l) = '\n' :: l := by
    have hstop : stopHere [pys "[3", pys "\n\n"] ('\n' :: l) = false := by
      rw [stopHere]
      have h1 : (pys "[3").isPrefixOf ('\n' :: l) = false := rfl
      have h2 : (('\n' :: l : PyStr) == ['\n']) = false := by
        simp only [beq_eq_false_iff_ne, ne_eq, List.cons.injEq]
        intro he
        exact hne he.2
      simp only [List.any_cons, List.any_nil, h1, hpre2, h2, Bool.or_false,
        Bool.false_or]
    rw [takeBody, hstop]
    simp only [Bool.false_eq_true, if_false]
    rw [takeBody_clean l h3 hn]
  have hfs : findSection (pys "[3TEAMS]") [pys "[3", pys "\n\n"]
      (pys "[3TEAMS]" ++ '\n' :: l) = some ('\n' :: l) := by
    rw [findSection_self _ _ _ (by decide), hbody]
  have hstrip : pyStrip ('\n' :: l) = l := by
    rw [pyStrip]
    have h1 : ('\n' :: l).dropWhile pySpace = l.dropWhile pySpace := by
      rw [List.dropWhile_cons, if_pos (by decide)]
    rw [h1, hsl.1, hsl.2, List.reverse_reverse]
  have hlines : pyLines l = [l] := by
    rw [pyLines, splitCh_of_not_mem '\n' l hn]
    simp [hs, hne]
  rw [extract_teams, hfs]
  simp only [hstrip, hlines]
  have hl0 : ((l : PyStr) == []) = false := by
    simp only [beq_eq_false_iff_ne, ne_eq]
    exact hne
  simp only [withIdx, List.foldl, hl0, Bool.false_eq_true, if_false]
  by_cases hlen : 2 ≤ (splitCh ';' l).length
  · simp [hlen, dictSetO]
  · simp [hlen]

/-! ## C1 — result of `get_match_result` on the empty score table -/

/-- C1 counterexample: the claim says the empty set-score table yields a
zeroed result dict with winner `tie`; in the source, `get_match_result({})`
returns the empty dict `{}` (modelled as `Except.ok none`), which carries no
sets-won counts and no winner at all. -/
theorem c1_counterexample :
    get_match_result [] ≠ Except.ok (some {
      team_1_sets_won := 0, team_2_sets_won := 0, total_sets_played := 0,
      match_winner := pys "tie" }) := by decide

/-- C1 (amended): for the empty set-score table `get_match_result` returns
the empty dict — no sets-won keys and no winner, not a zeroed result; the
winner `tie` arises only for nonempty tables with equal sets-won counts, as in
the second conjunct (a drawn set increments neither side). -/
theorem c1_empty_result :
    get_match_result [] = Except.ok none ∧
    get_match_result [(t1key 1, 25), (t2key 1, 25)] =
      Except.ok (some {
        team_1_sets_won := 0, team_2_sets_won := 0, total_sets_played := 1,
        match_winner := pys "tie" }) := by
  exact ⟨rfl, by decide⟩

/-! ## C5 — concrete set-score lines -/

/-- C5: a set-score section whose single line is `P1;;;;25-20;25` records
scores 25 and 20 for set 1; a single all-blank line `P1;;;;;` records nothing
(and the embedding is total, so nothing is thrown). -/
theorem c5_set_score_lines :
    extract_set_scores (pys "[3SET]\nP1;;;;25-20;25") =
      [(pys "team_1_set_1", 25), (pys "team_2_set_1", 20)] ∧
    extract_set_scores (pys "[3SET]\nP1;;;;;") = [] := by
  constructor
  · decide
  · decide

/-! ## C2 and C7 — admission, soft degradation and the except path -/

theorem attack_isSome_iff (line : PyStr) (h : 5 ≤ (splitCh ';' line).length) :
    (parse_attack_combo_line line).isSome = true ↔ attackNoExn line = true := by
  have h5 : ¬((splitCh ';' line).length < 5) := by omega
  simp only [parse_attack_combo_line, attackNoExn]
  rw [if_neg h5]
  cases guardInt ((splitCh ';' line).getD 1 []) <;>
    cases (if 6 < (splitCh ';' line).length
      then guardInt ((splitCh ';' line).getD 6 []) else Except.ok none) <;>
      cases (if 7 < (splitCh ';' line).length
        then guardInt ((splitCh ';' line).getD 7 []) else Except.ok none) <;>
        simp [guardOkB]

theorem setter_isSome_iff (line : PyStr) (h : 3 ≤ (splitCh ';' line).length) :
    (parse_setter_call_line line).isSome = true ↔ setterNoExn line = true := by
  have h3 : ¬((splitCh ';' line).length < 3) := by omega
  simp only [parse_setter_call_line, setterNoExn]
  rw [if_neg h3]
  cases (if 4 < (splitCh ';' line).length
      then guardInt ((splitCh ';' line).getD 4 []) else Except.ok none) <;>
    cases (if 5 < (splitCh ';' line).length
        then guardInt ((splitCh ';' line).getD 5 []) else Except.ok none) <;>
      cases (if 6 < (splitCh ';' line).length
          then guardInt ((splitCh ';' line).getD 6 []) else Except.ok none) <;>
        cases (if 7 < (splitCh ';' line).length
            then guardInt ((splitCh ';' line).getD 7 []) else Except.ok none) <;>
          cases (if 9 < (splitCh ';' line).length
              then guardInt ((splitCh ';' line).getD 9 []) else Except.ok none) <;>
            simp [guardOkB]

/-- C2 counterexample: the superscript digit `²` passes Python's `isdigit`
but `int('²')` raises, so the admitted 5-field attack line `X1;²;R;H;desc`
is wholly dropped by the except path instead of degrading its zone to
absent — the claim that a malformed numeric token never causes the rejection
of the whole record is false. -/
theorem c2_counterexample :
    5 ≤ (splitCh ';' (pys "X1;²;R;H;desc")).length ∧
    parse_attack_combo_line (pys "X1;²;R;H;desc") = none :=
  ⟨by decide, by decide⟩

/-- C2 (amended): no exception escapes a decoder (each is a total function
into `Option`), and a numeric token that fails the `isdigit` guard only makes
that attribute absent; but soft degradation stops at the isdigit/int gap: an
admitted attack (resp. setter) line yields a record exactly when no guarded
coercion raises, and a token that passes `isdigit` while not int-parsable
(a superscript digit) aborts the whole record via the except clause.  The
player decoder performs no numeric coercion and admits every line at or
above its minimum. -/
theorem c2_soft_numeric_fields :
    (∀ line c, parse_attack_combo_line line = some c →
      isdigitB ((splitCh ';' line).getD 1 []) = false → c.zone = none) ∧
    (∀ line r, parse_setter_call_line line = some r →
      isdigitB ((splitCh ';' line).getD 4 []) = false → r.color_code = none) ∧
    (∀ line, 5 ≤ (splitCh ';' line).length →
      ((parse_attack_combo_line line).isSome = true ↔ attackNoExn line = true)) ∧
    (∀ line, 3 ≤ (splitCh ';' line).length →
      ((parse_setter_call_line line).isSome = true ↔ setterNoExn line = true)) ∧
    (∀ line team g, 10 ≤ (splitCh ';' line).length →
      (parse_single_player line team g).isSome = true) := by
  refine ⟨?_, ?_, fun line h => attack_isSome_iff line h,
    fun line h => setter_isSome_iff line h, ?_⟩
  · intro line c h hd
    simp only [parse_attack_combo_line] at h
    split at h
    · exact absurd h (by simp)
    · split at h
      · rename_i zone cc pc hz hc hp
        injection h with h'
        rw [← h']
        show zone = none
        rw [guardInt, hd] at hz
        simp at hz
        exact hz.symm
      · exact absurd h (by simp)
  · intro line r h hd
    simp only [parse_setter_call_line] at h
    split at h
    · exact absurd h (by simp)
    · split at h
      · rename_i cc p1 p2 p3 f9 hc h1 h2 h3 h9
        injection h with h'
        rw [← h']
        show cc = none
        by_cases hlen : 4 < (splitCh ';' line).length
        · rw [if_pos hlen, guardInt, hd] at hc
          simp at hc
          exact hc.symm
        · rw [if_neg hlen] at hc
          injection hc with hc'
          exact hc'.symm
      · exact absurd h (by simp)
  · intro line team g h
    have h10 : ¬((splitCh ';' line).length < 10) := by omega
    simp [parse_single_player, h10]

/-- C2 witness: the admitted attack line `X1;ab;R;H;desc` (5 fields, zone
token `ab` failing the `isdigit` guard, no guarded coercion raising) yields a
record whose zone is absent. -/
theorem c2_witness :
    (parse_attack_combo_line (pys "X1;ab;R;H;desc")).isSome = true ∧
    ∃ c, parse_attack_combo_line (pys "X1;ab;R;H;desc") = some c ∧ c.zone = none :=
  ⟨(c2_soft_numeric_fields.2.2.1 (pys "X1;ab;R;H;desc") (by decide)).mpr (by decide),
   ⟨_, rfl, c2_soft_numeric_fields.1 (pys "X1;ab;R;H;desc") _ rfl (by decide)⟩⟩

/-- C7 counterexample: the admitted 5-field setter line `K1;;desc;;²` (at or
above the minimum of 3) is rejected, because its color token `²` passes
`isdigit` yet makes `int(...)` raise — admission is not determined by the
field count alone. -/
theorem c7_counterexample :
    3 ≤ (splitCh ';' (pys "K1;;desc;;²")).length ∧
    parse_setter_call_line (pys "K1;;desc;;²") = none :=
  ⟨by decide, by decide⟩

/-- C7 (amended): each decoder rejects every line below its kind minimum —
5 for attack combinations, 3 for setter calls, 10 for players, and 2 for the
team gate inline in `extract_teams` (on a clean single-line section).  Lines
at or above the minimum are admitted, except that the attack and setter
decoders also reject an admitted line in which a guarded numeric token passes
`isdigit` but fails `int(...)` (the except path); the player decoder and the
team gate admit exactly at the minimum. -/
theorem c7_admission_gate :
    (∀ line, (parse_attack_combo_line line).isSome = true ↔
      (5 ≤ (splitCh ';' line).length ∧ attackNoExn line = true)) ∧
    (∀ line, (parse_setter_call_line line).isSome = true ↔
      (3 ≤ (splitCh ';' line).length ∧ setterNoExn line = true)) ∧
    (∀ line team g, (parse_single_player line team g).isSome = true ↔
      10 ≤ (splitCh ';' line).length) ∧
    (∀ l : PyStr, '\n' ∉ l → pyStrip l = l → l ≠ [] →
      hasOcc (pys "[3") l = false →
      (extract_teams (pys "[3TEAMS]" ++ '\n' :: l) ≠ [] ↔
        2 ≤ (splitCh ';' l).length)) := by
  refine ⟨?_, ?_, ?_, ?_⟩
  · intro line
    constructor
    · intro h
      by_cases hlen : 5 ≤ (splitCh ';' line).length
      · exact ⟨hlen, (attack_isSome_iff line hlen).mp h⟩
      · exfalso
        have h5 : (splitCh ';' line).length < 5 := by omega
        simp [parse_attack_combo_line, h5] at h
    · rintro ⟨hlen, hok⟩
      exact (attack_isSome_iff line hlen).mpr hok
  · intro line
    constructor
    · intro h
      by_cases hlen : 3 ≤ (splitCh ';' line).length
      · exact ⟨hlen, (setter_isSome_iff line hlen).mp h⟩
      · exfalso
        have h3 : (splitCh ';' line).length < 3 := by omega
        simp [parse_setter_call_line, h3] at h
    · rintro ⟨hlen, hok⟩
      exact (setter_isSome_iff line hlen).mpr hok
  · intro line team g
    constructor
    · intro h
      by_contra hlt
      simp [parse_single_player, (by omega : (splitCh ';' line).length < 10)] at h
    · intro h
      have h' : ¬((splitCh ';' line).length < 10) := by omega
      simp [parse_single_player, h']
  · intro l hn hs hne h3
    rw [extract_teams_single_line l hn hs hne h3]
    by_cases hlen : 2 ≤ (splitCh ';' l).length
    · rw [if_pos hlen]
      simp [hlen]
    · rw [if_neg hlen]
      simp [hlen]

/-- C7 witness: a 5-field attack line with no raising token is admitted; the
2-field team line `1;Alpha` produces a team entry. -/
theorem c7_witness :
    (parse_attack_combo_line (pys "a;b;c;d;e")).isSome = true ∧
    extract_teams (pys "[3TEAMS]" ++ '\n' :: pys "1;Alpha") ≠ [] :=
  ⟨(c7_admission_gate.1 (pys "a;b;c;d;e")).mpr ⟨by decide, by decide⟩,
   (c7_admission_gate.2.2.2 (pys "1;Alpha") (by decide) (by decide) (by decide)
      (by decide)).mpr (by decide)⟩

/-! ## Decimal round trip: `str(n)` then `int(...)` -/

theorem digitChar_toNat (r : Nat) (h : r < 10) : (digitChar r).toNat = 48 + r := by
  interval_cases r <;> rfl

theorem digitChar_isDig (r : Nat) (h : r < 10) : isDig (digitChar r) = true := by
  interval_cases r <;> rfl

theorem digitsVal_append_digit (l : PyStr) (c : Char) :
    digitsVal (l ++ [c]) = digitsVal l * 10 + (c.toNat - 48) := by
  rw [digitsVal, digitsVal, List.foldl_append]
  rfl

theorem natToStrAux_spec : ∀ fuel n, n < fuel →
    natToStrAux fuel n ≠ [] ∧ (natToStrAux fuel n).all isDig = true ∧
      digitsVal (natToStrAux fuel n) = n := by
  intro fuel
  induction fuel with
  | zero => intro n h; omega
  | succ f ih =>
    intro n h
    rw [natToStrAux]
    by_cases h10 : n < 10
    · rw [if_pos h10]
      refine ⟨by simp, ?_, ?_⟩
      · simp [digitChar_isDig n h10]
      · rw [show ([digitChar n] : PyStr) = [] ++ [digitChar n] from rfl,
          digitsVal_append_digit, digitChar_toNat n h10]
        show 0 * 10 + (48 + n - 48) = n
        omega
    · rw [if_neg h10]
      have hdiv : n / 10 < f := by
        have := Nat.div_lt_self (show 0 < n by omega) (show 1 < 10 by omega)
        omega

      obtain ⟨h1, h2, h3⟩ := ih (n / 10) hdiv
      have hmod : n % 10 < 10 := Nat.mod_lt n (by omega)
      refine ⟨by simp, ?_, ?_⟩
      · rw [List.all_append]
        simp [h2, digitChar_isDig _ hmod]
      · rw [digitsVal_append_digit, h3, digitChar_toNat _ hmod]
        omega

theorem natToStr_spec (n : Nat) :
    natToStr n ≠ [] ∧ (natToStr n).all isDig = true ∧ digitsVal (natToStr n) = n :=
  natToStrAux_spec (n + 1) n (Nat.lt_succ_self n)

theorem isDig_bounds (c : Char) (h : isDig c = true) :
    48 ≤ c.toNat ∧ c.toNat ≤ 57 := by
  rw [isDig, Bool.and_eq_true, decide_eq_true_eq, decide_eq_true_eq] at h
  exact h

theorem isDig_not_space (c : Char) (h : isDig c = true) : pySpace c = false := by
  have hc := isDig_bounds c h
  rw [pySpace]
  simp only [Bool.or_eq_false_iff, beq_eq_false_iff_ne, ne_eq]
  refine ⟨⟨⟨⟨⟨?_, ?_⟩, ?_⟩, ?_⟩, ?_⟩, ?_⟩ <;>
    (intro he; subst he; exact absurd hc (by decide))

theorem dropWhile_no_space (l : PyStr) (h : ∀ c ∈ l, pySpace c = false) :
    l.dropWhile pySpace = l := by
  cases l with
  | nil => rfl
  | cons c rest =>
    rw [List.dropWhile_cons, if_neg (by simp [h c (List.mem_cons_self c rest)])]

theorem pyStrip_of_digits (l : PyStr) (h : l.all isDig = true) : pyStrip l = l := by
  have hns : ∀ c ∈ l, pySpace c = false := fun c hc =>
    isDig_not_space c (by rw [List.all_eq_true] at h; exact h c hc)
  have hns' : ∀ c ∈ l.reverse, pySpace c = false := fun c hc =>
    hns c (List.mem_reverse.mp hc)
  rw [pyStrip, dropWhile_no_space l hns, dropWhile_no_space l.reverse hns',
    List.reverse_reverse]

theorem pyInt?_natToStr (n : Nat) : pyInt? (natToStr n) = some (n : Int) := by
  obtain ⟨h1, h2, h3⟩ := natToStr_spec n
  have hstrip : pyStrip (natToStr n) = natToStr n := pyStrip_of_digits _ h2
  rw [pyInt?, hstrip]
  cases hl : natToStr n with
  | nil => exact absurd hl h1
  | cons c rest =>
    have hcd : isDig c = true := by
      rw [hl, List.all_cons, Bool.and_eq_true] at h2
      exact h2.1
    have hcb := isDig_bounds c hcd
    have hcp : ¬(c = '+') := fun he => by subst he; exact absurd hcb (by decide)
    have hcm : ¬(c = '-') := fun he => by subst he; exact absurd hcb (by decide)
    have hdig : decDigits (c :: rest) = true := by
      rw [decDigits, ← hl, h2, Bool.and_true]
      rw [hl]
      simp
    split
    · rename_i ds heq
      rw [List.cons.injEq] at heq
      exact absurd heq.1 hcp
    · rename_i ds heq
      rw [List.cons.injEq] at heq
      exact absurd heq.1 hcm
    · simp only [hdig, if_true]
      rw [← hl, h3]

/-! ## Key shape of the score table built by `extract_set_scores` -/

theorem setLineEntries_cases (n : Nat) (line : PyStr) :
    setLineEntries n line = [] ∨
    ∃ a b, setLineEntries n line = [(t1key n, a), (t2key n, b)] := by
  simp only [setLineEntries]
  repeat' split
  all_goals first
    | exact Or.inl rfl
    | exact Or.inr ⟨_, _, rfl⟩

theorem setLineEntries_shape (n : Nat) (line : PyStr) :
    ∀ kv ∈ setLineEntries n line, kv.1 = t1key n ∨ kv.1 = t2key n := by
  intro kv hkv
  rcases setLineEntries_cases n line with h | ⟨a, b, h⟩
  · rw [h] at hkv
    exact absurd hkv (List.not_mem_nil kv)
  · rw [h] at hkv
    rcases List.mem_cons.mp hkv with rfl | h2
    · exact Or.inl rfl
    · rcases List.mem_cons.mp h2 with rfl | h3
      · exact Or.inr rfl
      · exact absurd h3 (List.not_mem_nil kv)

theorem dictSet_keys : ∀ (d : ScoreDict) (k : PyStr) (v : Int) (k' : PyStr),
    k' ∈ (dictSet d k v).map (fun e => e.1) → k' = k ∨ k' ∈ d.map (fun e => e.1) := by
  intro d k v
  induction d with
  | nil =>
    intro k' h
    rw [dictSet] at h
    simp at h
    exact Or.inl h
  | cons e rest ih =>
    intro k' h
    rw [dictSet] at h
    split at h
    · simp at h
      rcases h with rfl | h
      · exact Or.inl rfl
      · exact Or.inr (by simp [h])
    · simp at h
      rcases h with rfl | h
      · exact Or.inr (by simp)
      · rcases ih k' (by simpa using h) with h' | h'
        · exact Or.inl h'
        · exact Or.inr (by simp [h'])

theorem foldl_entries_shaped :
    ∀ (es : List (PyStr × Int)) (d : ScoreDict),
      (∀ kv ∈ es, (∃ n : Nat, kv.1 = t1key n) ∨ (∃ n : Nat, kv.1 = t2key n)) →
      scoreKeysShaped d →
      scoreKeysShaped (es.foldl (fun d kv => dictSet d kv.1 kv.2) d) := by
  intro es
  induction es with
  | nil => exact fun d _ hd => hd
  | cons kv rest ih =>
    intro d hes hd
    rw [List.foldl_cons]
    refine ih _ (fun kv' h => hes kv' (List.mem_cons_of_mem _ h)) ?_
    intro k hk
    rcases dictSet_keys d kv.1 kv.2 k hk with rfl | h
    · exact hes kv (List.mem_cons_self kv rest)
    · exact hd k h

theorem extract_set_scores_shaped (doc : PyStr) :
    scoreKeysShaped (extract_set_scores doc) := by
  rw [extract_set_scores]
  split
  · intro k hk; exact absurd hk (by simp)
  · rename_i body _
    generalize withIdx 1 (pyLines (pyStrip body)) = lines
    have : ∀ (ls : List (Nat × PyStr)) (d : ScoreDict), scoreKeysShaped d →
        scoreKeysShaped (ls.foldl (fun d e =>
          (setLineEntries e.1 e.2).foldl (fun d kv => dictSet d kv.1 kv.2) d) d) := by
      intro ls
      induction ls with
      | nil => exact fun d hd => hd
      | cons e rest ih =>
        intro d hd
        rw [List.foldl_cons]
        refine ih _ (foldl_entries_shaped _ _ ?_ hd)
        intro kv hkv
        rcases setLineEntries_shape e.1 e.2 kv hkv with h | h
        · exact Or.inl ⟨e.1, h⟩
        · exact Or.inr ⟨e.1, h⟩
    exact this lines [] (fun k hk => absurd hk (by simp))

theorem setNums_ok_of_shape : ∀ ks : List PyStr,
    (∀ k ∈ ks, (∃ n : Nat, k = t1key n) ∨ (∃ n : Nat, k = t2key n)) →
    ∃ l, setNums ks = Except.ok l := by
  intro ks
  induction ks with
  | nil => exact fun _ => ⟨[], rfl⟩
  | cons k rest ih =>
    intro h
    obtain ⟨l, hl⟩ := ih (fun k' hk' => h k' (List.mem_cons_of_mem _ hk'))
    rcases h k (List.mem_cons_self k rest) with ⟨n, rfl⟩ | ⟨n, rfl⟩
    · have hpre : (pys "team_1_set_").isPrefixOf (t1key n) = true :=
        isPrefixOf_app (pys "team_1_set_") (natToStr n)
      have hnd : '_' ∉ natToStr n := by
        intro hm
        have h2 := (natToStr_spec n).2.1
        rw [List.all_eq_true] at h2
        exact absurd (isDig_bounds _ (h2 _ hm)) (by decide)
      have hsplit : splitCh '_' (t1key n) =
          [pys "team", pys "1", pys "set", natToStr n] := by
        have base : ∀ s : PyStr, splitCh '_' (pys "team_1_set_" ++ s) =
            pys "team" :: pys "1" :: pys "set" :: splitCh '_' s := fun s => rfl
        rw [t1key, base, splitCh_of_not_mem '_' _ hnd]
      rw [setNums, if_pos hpre, hsplit]
      have hlast : ([pys "team", pys "1", pys "set", natToStr n] :
          List PyStr).getLast?.getD [] = natToStr n := rfl
      rw [hlast, pyInt?_natToStr, hl]
      exact ⟨_, rfl⟩
    · have hpre : (pys "team_1_set_").isPrefixOf (t2key n) = false := by
        have : ∀ s : PyStr,
            (pys "team_1_set_").isPrefixOf (pys "team_2_set_" ++ s) = false :=
          fun s => rfl
        exact this (natToStr n)
      rw [setNums, if_neg (by rw [hpre]; exact Bool.false_ne_true)]
      exact ⟨l, hl⟩

theorem get_match_result_ok (ss : ScoreDict) (h : scoreKeysShaped ss) :
    ∃ r, get_match_result ss = Except.ok r := by
  rw [get_match_result]
  split
  · exact ⟨none, rfl⟩
  · obtain ⟨l, hl⟩ := setNums_ok_of_shape _ h
    rw [hl]
    exact ⟨_, rfl⟩

/-! ## C8 — structural absence and the absence of a fatal path -/

/-- C8: for every document in which a given section marker does not occur the
corresponding extraction returns its empty container (independently of the
other sections, whose decoders never look at it), and the one place in the
core where an unguarded `int(...)` could raise — `get_match_result` on key
suffixes — never does on tables produced by `extract_set_scores`: the whole
embedded core is total and exception-free on every input text, including the
empty string. -/
theorem c8_missing_sections :
    (∀ doc, hasOcc (pys "[3ATTACKCOMBINATION]") doc = false →
      extract_attack_combinations doc = []) ∧
    (∀ doc, hasOcc (pys "[3SETTERCALL]") doc = false →
      extract_setter_calls doc = []) ∧
    (∀ doc, hasOcc (pys "[3TEAMS]") doc = false → extract_teams doc = []) ∧
    (∀ doc, hasOcc (pys "[3SET]") doc = false → extract_set_scores doc = []) ∧
    (∀ doc gH gV, hasOcc (pys "[3PLAYERS-H]") doc = false →
      hasOcc (pys "[3PLAYERS-V]") doc = false →
      extract_players doc gH gV = { home := [], visiting := [] }) ∧
    (∀ doc, ∃ r, get_match_result (extract_set_scores doc) = Except.ok r) := by
  refine ⟨?_, ?_, ?_, ?_, ?_, ?_⟩
  · intro doc h
    rw [extract_attack_combinations, findSection_of_no_occ _ _ doc h]
  · intro doc h
    rw [extract_setter_calls, findSection_of_no_occ _ _ doc h]
  · intro doc h
    rw [extract_teams, findSection_of_no_occ _ _ doc h]
  · intro doc h
    rw [extract_set_scores, findSection_of_no_occ _ _ doc h]
  · intro doc gH gV hH hV
    rw [extract_players, findSection_of_no_occ _ _ doc hH,
      findSection_of_no_occ _ _ doc hV]
  · intro doc
    exact get_match_result_ok _ (extract_set_scores_shaped doc)

/-- C8 witness: the empty document has no markers, and every extraction
yields its empty container on it. -/
theorem c8_witness :
    extract_attack_combinations (pys "") = [] ∧
    extract_teams (pys "") = [] ∧
    extract_set_scores (pys "") = [] ∧
    extract_players (pys "") (fun _ => pys "A") (fun _ => pys "B") =
      { home := [], visiting := [] } ∧
    ∃ r, get_match_result (extract_set_scores (pys "")) = Except.ok r :=
  ⟨c8_missing_sections.1 (pys "") (by decide),
   c8_missing_sections.2.2.1 (pys "") (by decide),
   c8_missing_sections.2.2.2.1 (pys "") (by decide),
   c8_missing_sections.2.2.2.2.1 (pys "") _ _ (by decide) (by decide),
   c8_missing_sections.2.2.2.2.2 (pys "")⟩

/-! ## C3 — section boundaries -/

theorem takeBody_spec (stops : List PyStr) :
    ∀ s b, takeBody stops s = b →
      ∃ post, s = b ++ post ∧
        (∀ j < b.length, stopHere stops (b.drop j ++ post) = false) ∧
        (post = [] ∨ stopHere stops post = true) := by
  intro s
  induction s with
  | nil =>
    intro b h
    rw [takeBody] at h
    subst h
    exact ⟨[], rfl, fun j hj => by simp at hj, Or.inl rfl⟩
  | cons c rest ih =>
    intro b h
    rw [takeBody] at h
    split at h
    · rename_i hstop
      subst h
      exact ⟨c :: rest, rfl, fun j hj => by simp at hj, Or.inr hstop⟩
    · rename_i hstop
      have hstop' : stopHere stops (c :: rest) = false := by
        revert hstop
        cases stopHere stops (c :: rest) <;> simp
      cases b with
      | nil => exact absurd h (by simp)
      | cons b0 bs =>
        rw [List.cons.injEq] at h
        obtain ⟨rfl, h2⟩ := h
        obtain ⟨post, hp1, hp2, hp3⟩ := ih bs h2
        refine ⟨post, by rw [List.cons_append, ← hp1], ?_, hp3⟩
        intro j hj
        cases j with
        | zero =>
          rw [List.drop_zero, List.cons_append, ← hp1]
          exact hstop'
        | succ j' =>
          rw [List.drop_succ_cons]
          exact hp2 j' (by simpa using hj)

/-- C3 counterexample: the claim’s terminator set is wrong on two counts.
For the set-score section two consecutive newlines do NOT terminate the body
(its pattern has no `\n\n` alternative, so the body of `[3SET]a\n\nb` is
`a\n\nb`, not `a`); and for the other sections a newline that ends the
document terminates the body one character before the end (Python `$`), so the
body of `[3TEAMS]a\n` is `a`, not `a\n`. -/
theorem c3_counterexample :
    findSection (pys "[3SET]") [pys "[3"] (pys "[3SET]a\n\nb") ≠ some (pys "a") ∧
    findSection (pys "[3TEAMS]") [pys "[3", pys "\n\n"] (pys "[3TEAMS]a\n") ≠
      some (pys "a\n") := by
  refine ⟨?_, ?_⟩ <;> decide

/-- C3 (amended): for every document and section kind, the extracted body
starts just after the first occurrence of the section marker and runs to the
first position where one of the configured literal terminators begins — the
explicit next-section marker and the generic `[3` for every kind, plus two
consecutive newlines for every kind EXCEPT the set-score section — or to the
end of the document, where a final newline that ends the document also
terminates (the `$` of the patterns).  Formally: a successful `findSection`
splits the document as `pre ++ marker ++ body ++ post` with no marker
occurrence starting inside `pre`, no terminator matching at any position
strictly inside `body`, and `post` either empty or starting with a
terminator. -/
theorem c3_section_body (m : PyStr) (stops : List PyStr) (hm : m ≠ []) :
    ∀ s b, findSection m stops s = some b →
      ∃ pre post, s = pre ++ m ++ b ++ post ∧
        (∀ i < pre.length, m.isPrefixOf (s.drop i) = false) ∧
        (∀ j < b.length, stopHere stops (b.drop j ++ post) = false) ∧
        (post = [] ∨ stopHere stops post = true) := by
  intro s
  induction s with
  | nil =>
    intro b h
    rw [findSection, if_neg hm] at h
    exact absurd h (by simp)
  | cons c rest ih =>
    intro b h
    rw [findSection] at h
    split at h
    · rename_i hp
      injection h with h'
      obtain ⟨t, ht⟩ := isPrefixOf_exists m (c :: rest) hp
      have hdrop : (c :: rest).drop m.length = t := by
        rw [ht]
        exact List.drop_left m t
      rw [hdrop] at h'
      obtain ⟨post, hp1, hp2, hp3⟩ := takeBody_spec stops t b h'
      refine ⟨[], post, ?_, ?_, hp2, hp3⟩
      · rw [ht, hp1]
        simp
      · intro i hi
        simp at hi
    · rename_i hp
      have hp' : m.isPrefixOf (c :: rest) = false := by
        revert hp
        cases m.isPrefixOf (c :: rest) <;> simp
      obtain ⟨pre, post, h1, h2, h3, h4⟩ := ih b h
      refine ⟨c :: pre, post, ?_, ?_, h3, h4⟩
      · rw [h1]
        simp
      · intro i hi
        cases i with
        | zero => exact hp'
        | succ i' =>
          rw [List.drop_succ_cons]
          exact h2 i' (by simpa using hi)

/-- C3 witness: the teams section of `x[3TEAMS]ab[3SET]q` decomposes as the
theorem states, with body `ab` terminated by the `[3` of the next marker. -/
theorem c3_witness :
    ∃ pre post, pys "x[3TEAMS]ab[3SET]q" =
        pre ++ pys "[3TEAMS]" ++ pys "ab" ++ post ∧
      (∀ i < pre.length,
        (pys "[3TEAMS]").isPrefixOf ((pys "x[3TEAMS]ab[3SET]q").drop i) = false) ∧
      (∀ j < (pys "ab").length,
        stopHere [pys "[3", pys "\n\n"] ((pys "ab").drop j ++ post) = false) ∧
      (post = [] ∨ stopHere [pys "[3", pys "\n\n"] post = true) :=
  c3_section_body (pys "[3TEAMS]") [pys "[3", pys "\n\n"] (by decide)
    (pys "x[3TEAMS]ab[3SET]q") (pys "ab") (by decide)

/-! ## C6 — match-result derivation over a well-formed score table -/

theorem renderTable_cons (e : Nat × Int × Int) (L : List (Nat × Int × Int)) :
    renderTable (e :: L) = (t1key e.1, e.2.1) :: (t2key e.1, e.2.2) :: renderTable L :=
  rfl

theorem t1pre_t1key (n : Nat) : (pys "team_1_set_").isPrefixOf (t1key n) = true :=
  isPrefixOf_app (pys "team_1_set_") (natToStr n)

theorem t1pre_t2key (n : Nat) : (pys "team_1_set_").isPrefixOf (t2key n) = false := rfl

theorem natToStr_no_sep (n : Nat) : '_' ∉ natToStr n := by
  intro hm
  have h2 := (natToStr_spec n).2.1
  rw [List.all_eq_true] at h2
  exact absurd (isDig_bounds _ (h2 _ hm)) (by decide)

theorem keyParse (n : Nat) :
    pyInt? ((splitCh '_' (t1key n)).getLast?.getD []) = some (n : Int) := by
  have hsplit : splitCh '_' (t1key n) = [pys "team", pys "1", pys "set", natToStr n] := by
    have base : ∀ s : PyStr, splitCh '_' (pys "team_1_set_" ++ s) =
        pys "team" :: pys "1" :: pys "set" :: splitCh '_' s := fun s => rfl
    rw [t1key, base, splitCh_of_not_mem '_' _ (natToStr_no_sep n)]
  rw [hsplit]
  have hlast : ([pys "team", pys "1", pys "set", natToStr n] :
      List PyStr).getLast?.getD [] = natToStr n := rfl
  rw [hlast, pyInt?_natToStr]

theorem natToStr_inj (n m : Nat) (h : natToStr n = natToStr m) : n = m := by
  have hn := (natToStr_spec n).2.2
  have hm := (natToStr_spec m).2.2
  rw [← hn, ← hm, h]

theorem t1key_inj (n m : Nat) (h : t1key n = t1key m) : n = m := by
  rw [t1key, t1key] at h
  exact natToStr_inj n m (List.append_cancel_left h)

theorem t1key_ne_t2key (n m : Nat) : t1key n ≠ t2key m := by
  intro h
  rw [t1key, t2key] at h
  have := (List.append_inj h (by rfl)).1
  exact absurd (congrArg (fun l => l.getD 5 ' ') this) (by decide)

theorem t2key_inj (n m : Nat) (h : t2key n = t2key m) : n = m := by
  rw [t2key, t2key] at h
  exact natToStr_inj n m (List.append_cancel_left h)

theorem t1keyI_nat (n : Nat) : t1keyI (n : Int) = t1key n := by
  rw [t1keyI, t1key, intToStr, if_neg (by omega)]
  congr 2

theorem t2keyI_nat (n : Nat) : t2keyI (n : Int) = t2key n := by
  rw [t2keyI, t2key, intToStr, if_neg (by omega)]
  congr 2

theorem setNums_render : ∀ L : List (Nat × Int × Int),
    setNums ((renderTable L).map (fun e => e.1)) =
      Except.ok (L.map (fun e => (e.1 : Int))) := by
  intro L
  induction L with
  | nil => rfl
  | cons e L' ih =>
    rw [renderTable_cons, List.map_cons, List.map_cons, List.map_cons]
    rw [setNums, if_pos (t1pre_t1key e.1), keyParse]
    rw [setNums, if_neg (by rw [t1pre_t2key e.1]; exact Bool.false_ne_true)]
    rw [ih]
    rfl

theorem dictGet_cons (k' : PyStr) (v' : Int) (d : ScoreDict) (k : PyStr) :
    dictGet ((k', v') :: d) k =
      if (k' == k) = true then some v' else dictGet d k := by
  cases hkk : (k' == k) with
  | true => simp [dictGet, List.find?, hkk]
  | false => simp [dictGet, List.find?, hkk]

theorem dictGet_render_t1 : ∀ (L : List (Nat × Int × Int)) (n : Nat) (a b : Int),
    (n, a, b) ∈ L → (L.map (fun e => e.1)).Nodup →
    dictGet (renderTable L) (t1key n) = some a := by
  intro L
  induction L with
  | nil => exact fun n a b h _ => absurd h (List.not_mem_nil _)
  | cons e L' ih =>
    intro n a b hmem hnd
    rw [List.map_cons, List.nodup_cons] at hnd
    rw [renderTable_cons, dictGet_cons]
    rcases List.mem_cons.mp hmem with heq | hmem'
    · rw [← heq]
      rw [if_pos (by simp)]
    · have hne : ¬(e.1 = n) := fun h =>
        hnd.1 (h ▸ List.mem_map_of_mem (fun x => x.1) hmem')
      rw [if_neg (by simpa using fun h => hne (t1key_inj e.1 n h)), dictGet_cons,
        if_neg (by simpa using fun h => t1key_ne_t2key n e.1 h.symm)]
      exact ih n a b hmem' hnd.2

theorem dictGet_render_t2 : ∀ (L : List (Nat × Int × Int)) (n : Nat) (a b : Int),
    (n, a, b) ∈ L → (L.map (fun e => e.1)).Nodup →
    dictGet (renderTable L) (t2key n) = some b := by
  intro L
  induction L with
  | nil => exact fun n a b h _ => absurd h (List.not_mem_nil _)
  | cons e L' ih =>
    intro n a b hmem hnd
    rw [List.map_cons, List.nodup_cons] at hnd
    rw [renderTable_cons, dictGet_cons]
    rcases List.mem_cons.mp hmem with heq | hmem'
    · rw [← heq]
      rw [if_neg (by simpa using t1key_ne_t2key n n), dictGet_cons, if_pos (by simp)]
    · have hne : ¬(e.1 = n) := fun h =>
        hnd.1 (h ▸ List.mem_map_of_mem (fun x => x.1) hmem')
      rw [if_neg (by simpa using t1key_ne_t2key e.1 n), dictGet_cons,
        if_neg (by simpa using fun h => hne (t2key_inj e.1 n h))]
      exact ih n a b hmem' hnd.2

theorem tally_spec (D : ScoreDict) :
    ∀ (M : List (Nat × Int × Int)) (acc : Nat × Nat × Nat),
      (∀ e ∈ M, dictGet D (t1keyI (e.1 : Int)) = some e.2.1 ∧
                dictGet D (t2keyI (e.1 : Int)) = some e.2.2) →
      (M.map (fun e => (e.1 : Int))).foldl (tallyStep D) acc =
        (acc.1 + (M.filter (fun e => decide (e.2.2 < e.2.1))).length,
         acc.2.1 + (M.filter (fun e => decide (e.2.1 < e.2.2))).length,
         acc.2.2 + M.length) := by
  intro M
  induction M with
  | nil => intro acc _; simp
  | cons e M' ih =>
    intro acc hl
    rw [List.map_cons, List.foldl_cons]
    have he := hl e (List.mem_cons_self e M')
    have hstep : tallyStep D acc (e.1 : Int) =
        (acc.1 + (if e.2.2 < e.2.1 then 1 else 0),
         acc.2.1 + (if e.2.1 < e.2.2 then 1 else 0), acc.2.2 + 1) := by
      rw [tallyStep, he.1, he.2]
    rw [hstep, ih _ (fun x hx => hl x (List.mem_cons_of_mem e hx))]
    rw [List.filter_cons, List.filter_cons, List.length_cons]
    by_cases h1 : e.2.2 < e.2.1
    · have h2 : ¬(e.2.1 < e.2.2) := by omega
      simp [h1, h2, Prod.ext_iff]
      try omega
    · by_cases h2 : e.2.1 < e.2.2
      · simp [h1, h2, Prod.ext_iff]
        try omega
      · simp [h1, h2, Prod.ext_iff]
        try omega

/-- C6: on every well-formed score table (each listed set carries both
sides, set numbers distinct) `get_match_result` counts one set for the
strictly higher scoring side, none for a drawn set, totals the sets, and
names as winner the side with strictly more sets won (`tie` on equality);
in particular the table {1:(25,20), 2:(20,25), 3:(25,23)} gives 2 sets to
side 1, 1 set to side 2, winner side 1 (`team_1` in the source’s naming). -/
theorem c6_match_result :
    (∀ L : List (Nat × Int × Int), L ≠ [] → (L.map (fun e => e.1)).Nodup →
      get_match_result (renderTable L) = Except.ok (some {
        team_1_sets_won := (L.filter (fun e => decide (e.2.2 < e.2.1))).length,
        team_2_sets_won := (L.filter (fun e => decide (e.2.1 < e.2.2))).length,
        total_sets_played := L.length,
        match_winner :=
          if (L.filter (fun e => decide (e.2.1 < e.2.2))).length <
              (L.filter (fun e => decide (e.2.2 < e.2.1))).length then pys "team_1"
          else if (L.filter (fun e => decide (e.2.2 < e.2.1))).length <
              (L.filter (fun e => decide (e.2.1 < e.2.2))).length then pys "team_2"
          else pys "tie" })) ∧
    get_match_result (renderTable [(1, 25, 20), (2, 20, 25), (3, 25, 23)]) =
      Except.ok (some {
        team_1_sets_won := 2, team_2_sets_won := 1, total_sets_played := 3,
        match_winner := pys "team_1" }) := by
  constructor
  · intro L hne hnd
    have hrne : renderTable L ≠ [] := by
      cases L with
      | nil => exact absurd rfl hne
      | cons e L' =>
        rw [renderTable_cons]
        exact fun h => List.noConfusion h
    have hkeys : ∀ e ∈ L, dictGet (renderTable L) (t1keyI (e.1 : Int)) = some e.2.1 ∧
        dictGet (renderTable L) (t2keyI (e.1 : Int)) = some e.2.2 := by
      rintro ⟨n, a, b⟩ he
      rw [t1keyI_nat, t2keyI_nat]
      exact ⟨dictGet_render_t1 L n a b he hnd, dictGet_render_t2 L n a b he hnd⟩
    rw [get_match_result, if_neg hrne, setNums_render L]
    dsimp only
    rw [tally_spec (renderTable L) L (0, 0, 0) hkeys]
    simp
  · decide

/-- C6 witness: a one-set table where side 1 wins the set. -/
theorem c6_witness :
    get_match_result (renderTable [(1, 25, 20)]) = Except.ok (some {
      team_1_sets_won := 1, team_2_sets_won := 0, total_sets_played := 1,
      match_winner := pys "team_1" }) := by
  have h := c6_match_result.1 [(1, 25, 20)] (by decide) (by decide)
  rw [h]
  decide

/-! ## C4 — match-identity resolution -/

theorem scanFor_append (attempt : PyStr → Option PyStr) :
    ∀ (pre t : PyStr),
      (∀ i < pre.length, mMarker.isPrefixOf ((pre ++ mMarker ++ t).drop i) = false) →
      scanFor attempt (pre ++ mMarker ++ t) = scanFor attempt (mMarker ++ t) := by
  intro pre
  induction pre with
  | nil => exact fun t _ => rfl
  | cons c p' ih =>
    intro t h
    have h0 : mMarker.isPrefixOf (c :: (p' ++ mMarker ++ t)) = false := by
      simpa using h 0 (by simp)
    show scanFor attempt (c :: (p' ++ mMarker ++ t)) = _
    rw [scanFor, if_neg (by rw [h0]; exact Bool.false_ne_true)]
    exact ih t (fun i hi => by
      simpa [List.drop_succ_cons] using h (i + 1) (by simpa using Nat.succ_lt_succ hi))

theorem scanFor_marker (attempt : PyStr → Option PyStr) (t : PyStr) :
    scanFor attempt (mMarker ++ t) =
      (match attempt t with
       | some r => some r
       | none => scanFor attempt (pys "3MATCH]" ++ t)) := by
  have hp : mMarker.isPrefixOf ('[' :: (pys "3MATCH]" ++ t)) = true :=
    isPrefixOf_app mMarker t
  have hd : List.drop mMarker.length ('[' :: (pys "3MATCH]" ++ t)) = t :=
    List.drop_left mMarker t
  show scanFor attempt ('[' :: (pys "3MATCH]" ++ t)) = _
  rw [scanFor, if_pos hp, hd]

theorem scanFor_none (attempt : PyStr → Option PyStr) :
    ∀ s : PyStr, (∀ i < s.length, mMarker.isPrefixOf (s.drop i) = false) →
      scanFor attempt s = none := by
  intro s
  induction s with
  | nil => exact fun _ => rfl
  | cons c rest ih =>
    intro h
    have h0 : mMarker.isPrefixOf (c :: rest) = false := by
      simpa using h 0 (by simp)
    rw [scanFor, if_neg (by rw [h0]; exact Bool.false_ne_true)]
    exact ih (fun i hi => by
      simpa [List.drop_succ_cons] using h (i + 1) (by simpa using Nat.succ_lt_succ hi))

theorem splitCh_chunk_no_sep (sep : Char) :
    ∀ l p, p ∈ splitCh sep l → sep ∉ p := by
  intro l
  induction l with
  | nil =>
    intro p hp
    rw [splitCh] at hp
    simp at hp
    subst hp
    exact List.not_mem_nil sep
  | cons c rest ih =>
    intro p hp
    rw [splitCh] at hp
    split at hp
    · rcases List.mem_cons.mp hp with rfl | hp'
      · exact List.not_mem_nil sep
      · exact ih p hp'
    · rename_i hc
      split at hp
      · rename_i t ts hts
        rcases List.mem_cons.mp hp with rfl | hp'
        · intro hm
          rcases List.mem_cons.mp hm with rfl | hm'
          · exact hc rfl
          · exact ih t (by rw [hts]; exact List.mem_cons_self t ts) hm'
        · exact ih p (by rw [hts]; exact List.mem_cons_of_mem t hp')
      · rcases List.mem_cons.mp hp with rfl | hp'
        · intro hm
          rcases List.mem_cons.mp hm with rfl | hm'
          · exact hc rfl
          · exact absurd hm' (List.not_mem_nil sep)
        · exact absurd hp' (List.not_mem_nil p)

theorem splitCh_append_cons (sep : Char) :
    ∀ a r : PyStr, sep ∉ a → splitCh sep (a ++ sep :: r) = a :: splitCh sep r := by
  intro a
  induction a with
  | nil =>
    intro r _
    show splitCh sep (sep :: r) = [] :: splitCh sep r
    rw [splitCh, if_pos rfl]
  | cons c a' ih =>
    intro r h
    have hc : ¬(c = sep) := fun hcc => h (hcc ▸ List.mem_cons_self c a')
    show splitCh sep (c :: (a' ++ sep :: r)) = (c :: a') :: splitCh sep r
    rw [splitCh, if_neg hc, ih r (fun hm => h (List.mem_cons_of_mem c hm))]

theorem mem_of_drop : ∀ (n : Nat) (l : PyStr) (c : Char), c ∈ l.drop n → c ∈ l := by
  intro n
  induction n with
  | zero => intro l c h; simpa using h
  | succ n' ih =>
    intro l c h
    cases l with
    | nil => simp at h
    | cons a l' => exact List.mem_cons_of_mem a (ih l' c (by simpa using h))

theorem mem_of_take : ∀ (n : Nat) (l : PyStr) (c : Char), c ∈ l.take n → c ∈ l := by
  intro n
  induction n with
  | zero => intro l c h; simp at h
  | succ n' ih =>
    intro l c h
    cases l with
    | nil => simp at h
    | cons a l' =>
      rcases List.mem_cons.mp (by simpa using h) with rfl | h'
      · exact List.mem_cons_self _ _
      · exact List.mem_cons_of_mem a (ih l' c h')

theorem exists_cons_of_le_length (l : List PyStr) (n : Nat) (h : n + 1 ≤ l.length) :
    ∃ a l', l = a :: l' ∧ n ≤ l'.length := by
  cases l with
  | nil => simp at h
  | cons a l' => exact ⟨a, l', rfl, by simpa using h⟩

theorem headerAt_grp (t grp : PyStr) (hh : headerAt t = some grp) :
    (8 ≤ (splitCh ';' t).length ∧ (splitCh ';' t).getD 0 [] ≠ [] ∧
     (splitCh ';' t).getD 1 [] ≠ [] ∧ (splitCh ';' t).getD 7 [] ≠ []) ∧
    (splitCh ';' grp).length = 8 ∧
    (splitCh ';' grp).getD 7 [] = (splitCh ';' t).getD 7 [] := by
  rw [headerAt] at hh
  split at hh
  case isFalse => exact absurd hh (by simp)
  case isTrue hcond =>
    injection hh with hgrp
    rw [Bool.and_eq_true, Bool.and_eq_true, Bool.and_eq_true] at hcond
    obtain ⟨⟨⟨hlen, h0⟩, h1⟩, h7⟩ := hcond
    rw [decide_eq_true_eq] at hlen
    simp only [Bool.not_eq_eq_eq_not, Bool.not_true, beq_eq_false_iff_ne, ne_eq] at h0 h1 h7
    obtain ⟨c0, l0, e0, hl0⟩ := exists_cons_of_le_length _ 7 hlen
    obtain ⟨c1, l1, e1, hl1⟩ := exists_cons_of_le_length _ 6 hl0
    obtain ⟨c2, l2, e2, hl2⟩ := exists_cons_of_le_length _ 5 hl1
    obtain ⟨c3, l3, e3, hl3⟩ := exists_cons_of_le_length _ 4 hl2
    obtain ⟨c4, l4, e4, hl4⟩ := exists_cons_of_le_length _ 3 hl3
    obtain ⟨c5, l5, e5, hl5⟩ := exists_cons_of_le_length _ 2 hl4
    obtain ⟨c6, l6, e6, hl6⟩ := exists_cons_of_le_length _ 1 hl5
    obtain ⟨c7, l7, e7, _⟩ := exists_cons_of_le_length _ 0 hl6
    have hch : splitCh ';' t = c0 :: c1 :: c2 :: c3 :: c4 :: c5 :: c6 :: c7 :: l7 := by
      rw [e0, e1, e2, e3, e4, e5, e6, e7]
    have hns := splitCh_chunk_no_sep ';' t
    have h0ns : ';' ∉ c0 := hns c0 (by rw [hch]; simp)
    have h1ns : ';' ∉ c1 := hns c1 (by rw [hch]; simp)
    have h2ns : ';' ∉ c2 := hns c2 (by rw [hch]; simp)
    have h3ns : ';' ∉ c3 := hns c3 (by rw [hch]; simp)
    have h4ns : ';' ∉ c4 := hns c4 (by rw [hch]; simp)
    have h5ns : ';' ∉ c5 := hns c5 (by rw [hch]; simp)
    have h6ns : ';' ∉ c6 := hns c6 (by rw [hch]; simp)
    have h7ns : ';' ∉ c7 := hns c7 (by rw [hch]; simp)
    have hf1 : ';' ∉ hdrF1 c0 := by
      rw [hdrF1]
      intro hm
      split at hm
      · exact h0ns (mem_of_drop _ c0 ';' hm)
      · exact h0ns (mem_of_drop _ c0 ';' hm)
    have he : joinSemi (hdrF1 ((splitCh ';' t).getD 0 []) ::
        ((splitCh ';' t).drop 1).take 7) =
          hdrF1 c0 ++ ';' :: (c1 ++ ';' :: (c2 ++ ';' :: (c3 ++ ';' :: (c4 ++ ';' ::
            (c5 ++ ';' :: (c6 ++ ';' :: c7)))))) := by
      rw [hch]
      rfl
    have hsg : splitCh ';' grp = [hdrF1 c0, c1, c2, c3, c4, c5, c6, c7] := by
      rw [← hgrp, he, splitCh_append_cons ';' _ _ hf1,
        splitCh_append_cons ';' _ _ h1ns, splitCh_append_cons ';' _ _ h2ns,
        splitCh_append_cons ';' _ _ h3ns, splitCh_append_cons ';' _ _ h4ns,
        splitCh_append_cons ';' _ _ h5ns, splitCh_append_cons ';' _ _ h6ns,
        splitCh_of_not_mem ';' c7 h7ns]
    refine ⟨⟨hlen, h0, h1, h7⟩, ?_, ?_⟩
    · rw [hsg]
      rfl
    · rw [hsg, hch]
      rfl

theorem headerAt_none (t : PyStr) (hh : headerAt t = none) :
    ¬(8 ≤ (splitCh ';' t).length ∧ (splitCh ';' t).getD 0 [] ≠ [] ∧
      (splitCh ';' t).getD 1 [] ≠ [] ∧ (splitCh ';' t).getD 7 [] ≠ []) := by
  rw [headerAt] at hh
  split at hh
  case isTrue => exact absurd hh (by simp)
  case isFalse hcond =>
    rintro ⟨hl, h0, h1, h7⟩
    refine hcond ?_
    rw [Bool.and_eq_true, Bool.and_eq_true, Bool.and_eq_true]
    refine ⟨⟨⟨decide_eq_true hl, ?_⟩, ?_⟩, ?_⟩
    · simpa using h0
    · simpa using h1
    · simpa using h7

theorem pyStrip_ne_nil (s : PyStr) (h : pyStrip s ≠ []) : s ≠ [] := by
  intro hs
  rw [hs] at h
  exact h rfl

/-- C4 counterexample: the claimed chain is wrong on two counts.  A header
whose first field is blank (`[3MATCH];x;;;;;;MATCHID`) has a populated 8th
field, yet the stage-1 regex requires the first two fields nonempty, so the
code falls through to the uuid stage instead of returning `MATCHID`.  And a
populated 8th field is returned stripped, not verbatim: `[3MATCH]a;b;;;;;; M `
yields `M`, not ` M `. -/
theorem c4_counterexample :
    generate_match_id (pys "[3MATCH];x;;;;;;MATCHID")
      (pys "0123456789abcdef0123456789abcdef") ≠ pys "MATCHID" ∧
    generate_match_id (pys "[3MATCH]a;b;;;;;; M ")
      (pys "0123456789abcdef0123456789abcdef") ≠ pys " M " := by
  refine ⟨?_, ?_⟩ <;> decide

/-- C4 (amended): identity resolution is the ordered fallback chain, with the
stage-1 admission strengthened to what the header regex actually demands and
the result stripped: for a document `pre ++ "[3MATCH]" ++ t` whose marker
occurs only there, if `t` splits on `;` into at least 8 chunks with chunks 1
and 2 nonempty and chunk 8 nonblank after stripping, the stripped chunk 8 is
returned; otherwise the first run of 5 or more digits after the marker and
before the next newline; otherwise the first 8 characters of the fresh uuid
hex draw — 8 hexadecimal digit characters.  The chain is a total function and
never raises. -/
theorem c4_match_id_chain (pre t uuid : PyStr)
    (h1 : ∀ i < pre.length, mMarker.isPrefixOf ((pre ++ mMarker ++ t).drop i) = false)
    (h2 : ∀ i < (pys "3MATCH]" ++ t).length,
      mMarker.isPrefixOf ((pys "3MATCH]" ++ t).drop i) = false)
    (h3 : 8 ≤ uuid.length) (h4 : uuid.all isHexDig = true) :
    generate_match_id (pre ++ mMarker ++ t) uuid =
      (if 8 ≤ (splitCh ';' t).length ∧ (splitCh ';' t).getD 0 [] ≠ [] ∧
          (splitCh ';' t).getD 1 [] ≠ [] ∧ pyStrip ((splitCh ';' t).getD 7 []) ≠ []
       then pyStrip ((splitCh ';' t).getD 7 [])
       else match digitsLine t with
         | some d => d
         | none => uuid.take 8) ∧
    (uuid.take 8).length = 8 ∧ (uuid.take 8).all isHexDig = true := by
  have hfall : fallbackId (pre ++ mMarker ++ t) uuid =
      (match digitsLine t with | some d => d | none => uuid.take 8) := by
    rw [fallbackId, searchDigits, scanFor_append digitsLine pre t h1,
      scanFor_marker digitsLine t]
    cases hdl : digitsLine t with
    | some d => rfl
    | none => rw [scanFor_none digitsLine _ h2]
  refine ⟨?_, ?_, ?_⟩
  · cases hh : headerAt t with
    | some grp =>
      have hsh : searchHeader (pre ++ mMarker ++ t) = some grp := by
        rw [searchHeader, scanFor_append headerAt pre t h1,
          scanFor_marker headerAt t, hh]
      obtain ⟨⟨hlen, hc0, hc1, hc7⟩, hglen, hg7⟩ := headerAt_grp t grp hh
      rw [generate_match_id, hsh]
      dsimp only
      rw [hglen, hg7]
      by_cases hstrip : pyStrip ((splitCh ';' t).getD 7 []) = []
      · rw [if_neg (by
            intro hc
            rw [Bool.and_eq_true] at hc
            have hb := hc.2
            rw [hstrip] at hb
            simp at hb),
          hfall, if_neg (fun hc => hc.2.2.2 hstrip)]
      · rw [if_pos (by
            rw [Bool.and_eq_true]
            exact ⟨by decide, by simpa using hstrip⟩),
          if_pos ⟨hlen, hc0, hc1, hstrip⟩]
    | none =>
      have hsh : searchHeader (pre ++ mMarker ++ t) = none := by
        rw [searchHeader, scanFor_append headerAt pre t h1,
          scanFor_marker headerAt t, hh]
        exact scanFor_none headerAt _ h2
      rw [generate_match_id, hsh, hfall,
        if_neg (fun hc => headerAt_none t hh
          ⟨hc.1, hc.2.1, hc.2.2.1, fun h7 => hc.2.2.2 (by rw [h7]; rfl)⟩)]
  · rw [List.length_take]
    omega
  · rw [List.all_eq_true] at h4 ⊢
    exact fun c hc => h4 c (mem_of_take 8 uuid c hc)

/-- C4 witness: the document `x[3MATCH]a;b;;;;;;42 ` resolves through stage 1
to the stripped 8th header field `42`. -/
theorem c4_witness :
    generate_match_id (pys "x" ++ mMarker ++ pys "a;b;;;;;;42 ")
        (pys "0123456789abcdef0123456789abcdef") =
      (if 8 ≤ (splitCh ';' (pys "a;b;;;;;;42 ")).length ∧
          (splitCh ';' (pys "a;b;;;;;;42 ")).getD 0 [] ≠ [] ∧
          (splitCh ';' (pys "a;b;;;;;;42 ")).getD 1 [] ≠ [] ∧
          pyStrip ((splitCh ';' (pys "a;b;;;;;;42 ")).getD 7 []) ≠ []
       then pyStrip ((splitCh ';' (pys "a;b;;;;;;42 ")).getD 7 [])
       else match digitsLine (pys "a;b;;;;;;42 ") with
         | some d => d
         | none => (pys "0123456789abcdef0123456789abcdef").take 8) ∧
    ((pys "0123456789abcdef0123456789abcdef").take 8).length = 8 ∧
    ((pys "0123456789abcdef0123456789abcdef").take 8).all isHexDig = true :=
  c4_match_id_chain (pys "x") (pys "a;b;;;;;;42 ")
    (pys "0123456789abcdef0123456789abcdef")
    (by decide) (by decide) (by decide) (by decide)

/-! ## C10 — player-record invariants -/

theorem parse_single_player_fields (line : PyStr) (team : Option PyStr) (g : PyStr)
    (pl : Player) (h : parse_single_player line team g = some pl) (hg : g ≠ []) :
    pl.player_id ≠ [] ∧ pl.player_number ≠ [] := by
  simp only [parse_single_player] at h
  split at h
  · exact absurd h (by simp)
  · injection h with h'
    rw [← h']
    refine ⟨?_, ?_⟩
    · dsimp only
      split <;> split <;>
        first
        | exact hg
        | (rename_i hne; simpa using hne)
        | (rename_i hne; simp at hne)
    · dsimp only
      split
      · rename_i hcond
        rw [Bool.and_eq_true] at hcond
        simpa using hcond.2
      · exact (by decide : pys "0" ≠ [])

theorem mem_parse_player_lines (s : PyStr) (team : Option PyStr) (gen : Nat → PyStr)
    (p : Player) (hp : p ∈ parse_player_lines s team gen) :
    ∃ i line, parse_single_player line team (gen i) = some p := by
  rw [parse_player_lines, List.mem_filterMap] at hp
  obtain ⟨e, _, he⟩ := hp
  exact ⟨e.1, e.2, he⟩

/-- C10: `extract_players` always produces exactly the two rosters `home` and
`visiting` (the result structure `PlayersData`, mirroring the dict the source
initialises to `{"home": [], "visiting": []}` — by construction it has no
other key); every returned player record has a nonempty `player_id` (the 9th
field, or the generated token when that field is empty — so never `None`) and
a nonempty string `player_number`, which is the 2nd field when nonempty and
the default `"0"` exactly when the shirt-number field is empty. -/
theorem c10_player_invariants :
    (∀ doc gH gV, (∀ i, gH i ≠ []) → (∀ i, gV i ≠ []) →
      ∀ p, (p ∈ (extract_players doc gH gV).home ∨
            p ∈ (extract_players doc gH gV).visiting) →
        p.player_id ≠ [] ∧ p.player_number ≠ []) ∧
    (∀ line team g pl, parse_single_player line team g = some pl →
      (splitCh ';' line).getD 1 [] = [] → pl.player_number = pys "0") := by
  constructor
  · intro doc gH gV hgH hgV p hp
    rcases hp with hp | hp
    · simp only [extract_players] at hp
      split at hp
      · exact absurd hp (List.not_mem_nil p)
      · obtain ⟨i, line, he⟩ := mem_parse_player_lines _ _ _ p hp
        exact parse_single_player_fields line _ (gH i) p he (hgH i)
    · simp only [extract_players] at hp
      split at hp
      · exact absurd hp (List.not_mem_nil p)
      · obtain ⟨i, line, he⟩ := mem_parse_player_lines _ _ _ p hp
        exact parse_single_player_fields line _ (gV i) p he (hgV i)
  · intro line team g pl h hf
    simp only [parse_single_player] at h
    split at h
    · exact absurd h (by simp)
    · injection h with h'
      rw [← h']
      dsimp only
      rw [if_neg (by
        intro hc
        rw [Bool.and_eq_true] at hc
        have hb := hc.2
        rw [hf] at hb
        simp at hb)]

/-- C10 witness: the home roster of a one-player document, and a player line
with an empty shirt-number field receiving number `"0"`. -/
theorem c10_witness :
    ({ team := some (pys "Home"), player_number := pys "7", player_id := pys "ID01",
       last_name := some (pys "Doe"), first_name := some (pys "Jon"), role := none,
       full_name := some (pys "Jon Doe") } : Player).player_id ≠ [] ∧
    ({ team := some (pys "Home"), player_number := pys "7", player_id := pys "ID01",
       last_name := some (pys "Doe"), first_name := some (pys "Jon"), role := none,
       full_name := some (pys "Jon Doe") } : Player).player_number ≠ [] ∧
    ({ team := some (pys "T"), player_number := pys "0", player_id := pys "id9",
       last_name := some (pys "Doe"), first_name := none, role := none,
       full_name := some (pys "Doe") } : Player).player_number = pys "0" := by
  refine ⟨?_, ?_, ?_⟩
  · exact (c10_player_invariants.1 (pys "[3PLAYERS-H]\n0;7;;;;;;;ID01;Doe;Jon")
      (fun _ => pys "AAAAAA") (fun _ => pys "BBBBBB")
      (fun _ => (by decide : pys "AAAAAA" ≠ []))
      (fun _ => (by decide : pys "BBBBBB" ≠ [])) _ (Or.inl (by decide))).1
  · exact (c10_player_invariants.1 (pys "[3PLAYERS-H]\n0;7;;;;;;;ID01;Doe;Jon")
      (fun _ => pys "AAAAAA") (fun _ => pys "BBBBBB")
      (fun _ => (by decide : pys "AAAAAA" ≠ []))
      (fun _ => (by decide : pys "BBBBBB" ≠ [])) _ (Or.inl (by decide))).2
  · exact c10_player_invariants.2 (pys "x;;;;;;;;id9;Doe") (some (pys "T"))
      (pys "G1") _ (by decide) (by decide)

/-! ## C9 — determinism up to the documented random draws -/

theorem fallbackId_det (doc u1 u2 : PyStr) (h : (searchDigits doc).isSome = true) :
    fallbackId doc u1 = fallbackId doc u2 := by
  rw [fallbackId, fallbackId]
  cases hsd : searchDigits doc with
  | some d => rfl
  | none => rw [hsd] at h; simp at h

theorem generate_match_id_det (doc u1 u2 : PyStr) (h : idResolvable doc = true) :
    generate_match_id doc u1 = generate_match_id doc u2 := by
  rw [idResolvable] at h
  cases hsh : searchHeader doc with
  | some grp =>
    rw [hsh] at h
    rw [generate_match_id, generate_match_id, hsh]
    dsimp only
    by_cases hcond : (decide (8 ≤ (splitCh ';' grp).length) &&
        !(pyStrip ((splitCh ';' grp).getD 7 []) == [])) = true
    · rw [if_pos hcond, if_pos hcond]
    · rw [if_neg hcond, if_neg hcond]
      apply fallbackId_det
      rw [Bool.or_eq_true] at h
      rcases h with h | h
      · exact absurd h hcond
      · exact h
  | none =>
    rw [hsh] at h
    rw [generate_match_id, generate_match_id, hsh]
    dsimp only
    apply fallbackId_det
    rw [Bool.or_eq_true] at h
    rcases h with h | h
    · simp at h
    · exact h

theorem parse_single_player_det (l : PyStr) (team : Option PyStr) (g1 g2 : PyStr)
    (h : (splitCh ';' l).length < 10 ∨ (splitCh ';' l).getD 8 [] ≠ []) :
    parse_single_player l team g1 = parse_single_player l team g2 := by
  by_cases hlen : (splitCh ';' l).length < 10
  · simp [parse_single_player, hlen]
  · rcases h with h | h
    · exact absurd h hlen
    · simp only [parse_single_player]
      rw [if_neg hlen, if_neg hlen]
      have hc : (decide (8 < (splitCh ';' l).length) &&
          !((splitCh ';' l).getD 8 [] == [])) = true := by
        rw [Bool.and_eq_true]
        exact ⟨decide_eq_true (by omega), by simpa using h⟩
      have hz : ((splitCh ';' l).getD 8 [] == ([] : PyStr)) = false := by
        simpa using h
      rw [if_pos hc, hz, if_neg Bool.false_ne_true, if_neg Bool.false_ne_true]

theorem parse_player_lines_det : ∀ (ls : List PyStr) (n : Nat) (team : Option PyStr)
    (g1 g2 : Nat → PyStr),
    (∀ l ∈ ls, (splitCh ';' l).length < 10 ∨ (splitCh ';' l).getD 8 [] ≠ []) →
    (withIdx n ls).filterMap (fun e => parse_single_player e.2 team (g1 e.1)) =
    (withIdx n ls).filterMap (fun e => parse_single_player e.2 team (g2 e.1)) := by
  intro ls
  induction ls with
  | nil => intro n team g1 g2 _; rfl
  | cons l ls' ih =>
    intro n team g1 g2 h
    rw [withIdx, List.filterMap_cons, List.filterMap_cons]
    have hd := parse_single_player_det l team (g1 n) (g2 n) (h l (List.mem_cons_self l ls'))
    rw [hd]
    have ht := ih (n + 1) team g1 g2 (fun l' hl' => h l' (List.mem_cons_of_mem l hl'))
    cases parse_single_player l team (g2 n) with
    | none => exact ht
    | some pl => rw [ht]

theorem parse_player_lines_det2 (s : PyStr) (team : Option PyStr) (g1 g2 : Nat → PyStr)
    (h : ∀ l ∈ pyLines s, (splitCh ';' l).length < 10 ∨ (splitCh ';' l).getD 8 [] ≠ []) :
    parse_player_lines s team g1 = parse_player_lines s team g2 :=
  parse_player_lines_det (pyLines s) 0 team g1 g2 h

theorem lineOk_prop (l : PyStr)
    (h : (decide ((splitCh ';' l).length < 10) ||
      !((splitCh ';' l).getD 8 [] == [])) = true) :
    (splitCh ';' l).length < 10 ∨ (splitCh ';' l).getD 8 [] ≠ [] := by
  rw [Bool.or_eq_true] at h
  rcases h with h | h
  · exact Or.inl (by simpa using h)
  · exact Or.inr (by simpa using h)

theorem extract_players_det (doc : PyStr) (g1H g1V g2H g2V : Nat → PyStr)
    (h : allPlayersHaveIds doc = true) :
    extract_players doc g1H g1V = extract_players doc g2H g2V := by
  rw [allPlayersHaveIds, Bool.and_eq_true] at h
  obtain ⟨hH, hV⟩ := h
  simp only [extract_players]
  congr 1
  · cases hfs : findSection (pys "[3PLAYERS-H]")
        [pys "[3PLAYERS-V]", pys "[3", pys "\n\n"] doc with
    | none => rfl
    | some body =>
      rw [hfs, playerLinesOk] at hH
      rw [List.all_eq_true] at hH
      exact parse_player_lines_det2 _ _ _ _ (fun l hl => lineOk_prop l (hH l hl))
  · cases hfs : findSection (pys "[3PLAYERS-V]") [pys "[3", pys "\n\n"] doc with
    | none => rfl
    | some body =>
      rw [hfs, playerLinesOk] at hV
      rw [List.all_eq_true] at hV
      exact parse_player_lines_det2 _ _ _ _ (fun l hl => lineOk_prop l (hV l hl))

/-- C9 counterexample: the pipeline is NOT a deterministic function of the
document text whenever identity resolution reaches the uuid stage, even when
every admitted player line carries an identifier (vacuously true here: the
empty document has no player lines).  Two runs with different uuid draws
disagree on the aggregate. -/
theorem c9_counterexample :
    loadCore (pys "")
      { uuidHex := pys "aaaaaaaaaaaaaaaaaaaaaaaaaaaaaaaa",
        genH := fun _ => pys "AAAAAA", genV := fun _ => pys "AAAAAA" } ≠
    loadCore (pys "")
      { uuidHex := pys "bbbbbbbbbbbbbbbbbbbbbbbbbbbbbbbb",
        genH := fun _ => pys "BBBBBB", genV := fun _ => pys "BBBBBB" } :=
  fun h => absurd (congrArg MatchData.match_id h) (by decide)

/-- C9 (amended): two runs of the pipeline on the same document yield
structurally equal aggregates provided the two documented random draws are
not consumed: every admitted player line carries a non-empty identifier field
(9th position), and the match-identity chain resolves at stage 1 or 2 (so
the uuid fallback is not drawn).  Under those two conditions the whole
in-scope pipeline is a deterministic function of the document text. -/
theorem c9_determinism (doc : PyStr) (e1 e2 : Entropy)
    (hids : allPlayersHaveIds doc = true) (hid : idResolvable doc = true) :
    loadCore doc e1 = loadCore doc e2 := by
  simp only [loadCore]
  congr 1
  · exact generate_match_id_det doc e1.uuidHex e2.uuidHex hid
  · exact extract_players_det doc e1.genH e1.genV e2.genH e2.genV hids

/-- C9 witness: a document with a resolvable match id (digit run `12345` on
the header line) and identifier-carrying player lines decodes identically
under two different entropy draws. -/
theorem c9_witness :
    loadCore (pys "[3MATCH]a;b;12345\n[3PLAYERS-H]\n0;7;;;;;;;ID01;Doe;Jon\n[3PLAYERS-V]\n0;9;;;;;;;ID02;Roe;Amy")
      { uuidHex := pys "aaaaaaaaaaaaaaaaaaaaaaaaaaaaaaaa",
        genH := fun _ => pys "AAAAAA", genV := fun _ => pys "AAAAAA" } =
    loadCore (pys "[3MATCH]a;b;12345\n[3PLAYERS-H]\n0;7;;;;;;;ID01;Doe;Jon\n[3PLAYERS-V]\n0;9;;;;;;;ID02;Roe;Amy")
      { uuidHex := pys "bbbbbbbbbbbbbbbbbbbbbbbbbbbbbbbb",
        genH := fun _ => pys "BBBBBB", genV := fun _ => pys "BBBBBB" } :=
  c9_determinism _ _ _ (by decide) (by decide)

end PyDV
